import Mathlib

/-! # EXPLAIN / ANALYZE data structures and the file key lookup

A shallow embedding of `sql/sql_explain.h` and of the key lookup of
`plugin/file_key_management/file_key_management_plugin.cc`.

Conventions of the embedding.

* `ha_rows` is an unsigned integer type whose declaration is not part of the
  sources at hand; its bit width is the parameter `w` of every operation that
  increments a counter, and an increment is `(x + 1) % 2 ^ w`.
* `double` division is taken as exact division in `ℚ`.
* A `DBUG_ASSERT` that fails, or a read outside an array, makes the embedded
  function return `none` (or an error of `Fault`).
-/

namespace SqlExplain

/-! ## Table_access_tracker -/

/-- The three counters of `class Table_access_tracker`. -/
structure Table_access_tracker where
  r_scans : Nat
  r_rows : Nat
  r_rows_after_where : Nat
deriving DecidableEq

namespace Table_access_tracker

/-- The constructor `Table_access_tracker()`: all counters start at zero. -/
def new : Table_access_tracker :=
  { r_scans := 0, r_rows := 0, r_rows_after_where := 0 }

/-- The method `bool has_scans() { return (r_scans != 0); }`. -/
def has_scans (t : Table_access_tracker) : Bool :=
  t.r_scans != 0

/-- The method `ha_rows get_loops() { return r_scans; }`. -/
def get_loops (t : Table_access_tracker) : Nat :=
  t.r_scans

/-- The method `get_avg_rows`: `r_scans ? ((double)r_rows / r_scans) : 0`. -/
def get_avg_rows (t : Table_access_tracker) : ℚ :=
  if t.r_scans ≠ 0 then (t.r_rows : ℚ) / (t.r_scans : ℚ) else 0

/-- The method `get_filtered_after_where`. -/
def get_filtered_after_where (t : Table_access_tracker) : ℚ :=
  if t.r_rows > 0 then (t.r_rows_after_where : ℚ) / (t.r_rows : ℚ) else 1

/-- The method `on_scan_init() { r_scans++; }` on a `w`-bit counter. -/
def on_scan_init (w : Nat) (t : Table_access_tracker) : Table_access_tracker :=
  { t with r_scans := (t.r_scans + 1) % 2 ^ w }

/-- The method `on_record_read() { r_rows++; }` on a `w`-bit counter. -/
def on_record_read (w : Nat) (t : Table_access_tracker) : Table_access_tracker :=
  { t with r_rows := (t.r_rows + 1) % 2 ^ w }

/-- The method `on_record_after_where() { r_rows_after_where++; }`. -/
def on_record_after_where (w : Nat) (t : Table_access_tracker) : Table_access_tracker :=
  { t with r_rows_after_where := (t.r_rows_after_where + 1) % 2 ^ w }

end Table_access_tracker

/-- One call made by the executor on a tracker. -/
inductive Tracker_call where
  | on_scan_init
  | on_record_read
  | on_record_after_where
deriving DecidableEq

/-- The effect of one call on a tracker with `w`-bit counters. -/
def Tracker_call.apply (w : Nat) (t : Table_access_tracker) :
    Tracker_call → Table_access_tracker
  | .on_scan_init => t.on_scan_init w
  | .on_record_read => t.on_record_read w
  | .on_record_after_where => t.on_record_after_where w

/-- The tracker after the calls of `ops` were made on `t`, first call first. -/
def Table_access_tracker.run (w : Nat) (ops : List Tracker_call)
    (t : Table_access_tracker) : Table_access_tracker :=
  ops.foldl (Tracker_call.apply w) t

/-- In the calls `ops` every `on_record_after_where` is preceded by an
`on_record_read` of its own: no prefix of `ops` holds more
`on_record_after_where` calls than `on_record_read` calls. -/
def Tracker_call.reads_cover_filters (ops : List Tracker_call) : Prop :=
  ∀ n, n ≤ ops.length →
    (ops.take n).count .on_record_after_where ≤ (ops.take n).count .on_record_read

instance (ops : List Tracker_call) : Decidable (Tracker_call.reads_cover_filters ops) := by
  unfold Tracker_call.reads_cover_filters
  infer_instance

/-! ## Explain nodes -/

/-- The enumeration `Explain_node::explain_node_type`. -/
inductive explain_node_type where
  | EXPLAIN_UNION
  | EXPLAIN_SELECT
  | EXPLAIN_BASIC_JOIN
  | EXPLAIN_UPDATE
  | EXPLAIN_DELETE
  | EXPLAIN_INSERT
deriving DecidableEq

/-- The enumeration `Explain_node::explain_connection_type`. -/
inductive explain_connection_type where
  | EXPLAIN_NODE_OTHER
  | EXPLAIN_NODE_DERIVED
  | EXPLAIN_NODE_NON_MERGED_SJ
deriving DecidableEq

/-- The data members of the base class `Explain_node`. -/
structure Explain_node_base where
  connection_type : explain_connection_type
  children : List Int
deriving DecidableEq

/-- The method `Explain_node::add_child`: `children.append(select_no)`. -/
def Explain_node_base.add_child (n : Explain_node_base) (select_no : Int) :
    Explain_node_base :=
  { n with children := n.children ++ [select_no] }

/-- The class `Explain_index_use`: key name, key length, key parts. -/
structure Explain_index_use where
  key_name : Option String
  key_len : Nat
  key_parts_list : List String
deriving DecidableEq

/-- The enumerators of `QUICK_SELECT_I` that `is_basic` compares with. The
enumeration is declared in `opt_range.h`, which is not among the sources, so
the three values are parameters of the embedding. -/
structure QUICK_SELECT_I where
  QS_TYPE_RANGE : Int
  QS_TYPE_RANGE_DESC : Int
  QS_TYPE_GROUP_MIN_MAX : Int
deriving DecidableEq

/-- The class `Explain_quick_select`: a type tag, the index use of a range
scan, and the children of an index merge. -/
inductive Explain_quick_select where
  | mk (quick_type : Int) (range : Explain_index_use)
      (children : List Explain_quick_select)

namespace Explain_quick_select

/-- The constructor `Explain_quick_select(int quick_type_arg)`; `range` is
cleared by the constructor of `Explain_index_use` (`key_len= (uint)-1`, given
here as `uint_max`) and `children` starts empty. -/
def new (uint_max : Nat) (quick_type_arg : Int) : Explain_quick_select :=
  .mk quick_type_arg
    { key_name := none, key_len := uint_max, key_parts_list := [] } []

/-- The member `quick_type`. -/
def quick_type : Explain_quick_select → Int
  | .mk t _ _ => t

/-- The member `range`. -/
def range : Explain_quick_select → Explain_index_use
  | .mk _ r _ => r

/-- The member `children`. -/
def children : Explain_quick_select → List Explain_quick_select
  | .mk _ _ cs => cs

/-- The method `is_basic`. -/
def is_basic (E : QUICK_SELECT_I) (q : Explain_quick_select) : Bool :=
  q.quick_type == E.QS_TYPE_RANGE ||
  q.quick_type == E.QS_TYPE_RANGE_DESC ||
  q.quick_type == E.QS_TYPE_GROUP_MIN_MAX

end Explain_quick_select

/-- The enumeration `explain_extra_tag`. -/
inductive explain_extra_tag where
  | ET_none
  | ET_USING_INDEX_CONDITION
  | ET_USING_INDEX_CONDITION_BKA
  | ET_USING
  | ET_RANGE_CHECKED_FOR_EACH_RECORD
  | ET_USING_WHERE_WITH_PUSHED_CONDITION
  | ET_USING_WHERE
  | ET_NOT_EXISTS
  | ET_USING_INDEX
  | ET_FULL_SCAN_ON_NULL_KEY
  | ET_SKIP_OPEN_TABLE
  | ET_OPEN_FRM_ONLY
  | ET_OPEN_FULL_TABLE
  | ET_SCANNED_0_DATABASES
  | ET_SCANNED_1_DATABASE
  | ET_SCANNED_ALL_DATABASES
  | ET_USING_INDEX_FOR_GROUP_BY
  | ET_USING_MRR
  | ET_DISTINCT
  | ET_LOOSESCAN
  | ET_START_TEMPORARY
  | ET_END_TEMPORARY
  | ET_FIRST_MATCH
  | ET_USING_JOIN_BUFFER
  | ET_CONST_ROW_NOT_FOUND
  | ET_UNIQUE_ROW_NOT_FOUND
  | ET_IMPOSSIBLE_ON_CONDITION
  | ET_total
deriving DecidableEq

/-- The class `Explain_table_access`, without the members whose types are
declared outside the sources (`Item*`, `Exec_time_tracker`, `join_type`) and
without the nested `sjm_nest`. -/
structure Explain_table_access where
  table_name : String
  used_partitions : String
  derived_select_number : Int
  non_merged_sjm_number : Int
  used_partitions_set : Bool
  possible_keys : List String
  rows_set : Bool
  filtered_set : Bool
  key : Explain_index_use
  hash_next_key : Explain_index_use
  ref_list : List String
  rows : Nat
  extra_tags : List explain_extra_tag
  full_scan_on_null_key : Bool
  start_dups_weedout : Bool
  end_dups_weedout : Bool
  tracker : Table_access_tracker
  jbuf_tracker : Table_access_tracker
deriving DecidableEq

/-- The class `Explain_basic_join`. -/
structure Explain_basic_join extends Explain_node_base where
  select_id : Int
  join_tabs : List Explain_table_access

/-- The class `Explain_select`, which derives from `Explain_basic_join`;
`exec_const_cond` is a handle of the `Item` it points to. -/
structure Explain_select extends Explain_basic_join where
  select_type : String
  message : Option String
  exec_const_cond : Option Nat
  using_temporary : Bool
  using_filesort : Bool
  using_temporary_read_tracker : Table_access_tracker

/-- The class `Explain_union`. -/
structure Explain_union extends Explain_node_base where
  union_members : List Int
  fake_select_type : String
  using_filesort : Bool
  using_tmp : Bool
  fake_select_lex_tracker : Table_access_tracker
  tmptable_read_tracker : Table_access_tracker
deriving DecidableEq

/-- The class `Explain_update`; `jtype` and `where_cond` are handles of values
whose types are declared outside the sources. -/
structure Explain_update extends Explain_node_base where
  select_type : String
  used_partitions : String
  used_partitions_set : Bool
  impossible_where : Bool
  no_partitions : Bool
  table_name : String
  jtype : Nat
  possible_keys : List String
  key : Explain_index_use
  mrr_type : String
  quick_info : Option Explain_quick_select
  using_where : Bool
  where_cond : Option Nat
  rows : Nat
  using_filesort : Bool
  using_io_buffer : Bool
  tracker : Table_access_tracker

/-- The class `Explain_insert`. -/
structure Explain_insert extends Explain_node_base where
  table_name : String

/-- The class `Explain_delete`, which derives from `Explain_update`. -/
structure Explain_delete extends Explain_update where
  deleting_all_rows : Bool

namespace Explain_union

/-- The constructor `Explain_union(MEM_ROOT *root)`. It builds `children`,
`union_members` and the two trackers; the members it does not initialise keep
what the storage `raw` held. -/
def new (raw : Explain_union) : Explain_union :=
  { raw with
    children := []
    union_members := []
    fake_select_lex_tracker := Table_access_tracker.new
    tmptable_read_tracker := Table_access_tracker.new }

/-- The method `get_type` of `Explain_union`. -/
def get_type (_u : Explain_union) : explain_node_type :=
  .EXPLAIN_UNION

/-- The method `get_select_id` of `Explain_union`:
`DBUG_ASSERT(union_members.elements() > 0); return union_members.at(0);`.
The result is `none` when the assertion fails. -/
def get_select_id (u : Explain_union) : Option Int :=
  if u.union_members.length > 0 then u.union_members.get? 0 else none

/-- The method `add_select`: `union_members.append(select_no)`. -/
def add_select (u : Explain_union) (select_no : Int) : Explain_union :=
  { u with union_members := u.union_members ++ [select_no] }

/-- The inherited method `add_child`: `children.append(select_no)`. -/
def add_child (u : Explain_union) (select_no : Int) : Explain_union :=
  { u with toExplain_node_base := u.toExplain_node_base.add_child select_no }

end Explain_union

/-- One of the two calls that grow an `Explain_union`. -/
inductive Union_call where
  | add_select (select_no : Int)
  | add_child (select_no : Int)
deriving DecidableEq

/-- The effect of one call on an `Explain_union`. -/
def Union_call.apply (u : Explain_union) : Union_call → Explain_union
  | .add_select n => u.add_select n
  | .add_child n => u.add_child n

/-- The union after the calls of `ops` were made on `u`, first call first. -/
def Explain_union.run (ops : List Union_call) (u : Explain_union) : Explain_union :=
  ops.foldl Union_call.apply u

/-- The method `get_type` of `Explain_basic_join`. -/
def Explain_basic_join.get_type (_j : Explain_basic_join) : explain_node_type :=
  .EXPLAIN_BASIC_JOIN

/-- The method `get_select_id` of `Explain_basic_join`: `return select_id;`. -/
def Explain_basic_join.get_select_id (j : Explain_basic_join) : Int :=
  j.select_id

/-- The method `get_type` of `Explain_select`. -/
def Explain_select.get_type (_s : Explain_select) : explain_node_type :=
  .EXPLAIN_SELECT

/-- The method `get_select_id` that `Explain_select` inherits. -/
def Explain_select.get_select_id (s : Explain_select) : Int :=
  s.toExplain_basic_join.get_select_id

/-- The method `get_type` of `Explain_update`. -/
def Explain_update.get_type (_u : Explain_update) : explain_node_type :=
  .EXPLAIN_UPDATE

/-- The method `get_select_id` of `Explain_update`: `return 1;`. -/
def Explain_update.get_select_id (_u : Explain_update) : Int :=
  1

/-- The method `get_type` of `Explain_insert`. -/
def Explain_insert.get_type (_i : Explain_insert) : explain_node_type :=
  .EXPLAIN_INSERT

/-- The method `get_select_id` of `Explain_insert`: `return 1;`. -/
def Explain_insert.get_select_id (_i : Explain_insert) : Int :=
  1

/-- The method `get_type` of `Explain_delete`, which overrides the one of
`Explain_update`. -/
def Explain_delete.get_type (_d : Explain_delete) : explain_node_type :=
  .EXPLAIN_DELETE

/-- The method `get_select_id` of `Explain_delete`: `return 1;`. -/
def Explain_delete.get_select_id (_d : Explain_delete) : Int :=
  1

/-- An object seen through an `Explain_node*`: its dynamic class and data. -/
inductive Explain_node where
  | union (u : Explain_union)
  | select (s : Explain_select)
  | basic_join (j : Explain_basic_join)
  | update (u : Explain_update)
  | delete (d : Explain_delete)
  | insert (i : Explain_insert)

/-- The virtual call `node->get_type()`. -/
def Explain_node.get_type : Explain_node → explain_node_type
  | .union u => u.get_type
  | .select s => s.get_type
  | .basic_join j => j.get_type
  | .update u => u.get_type
  | .delete d => d.get_type
  | .insert i => i.get_type

/-- The virtual call `node->get_select_id()`; `none` when the assertion of
`Explain_union::get_select_id` fails. -/
def Explain_node.get_select_id : Explain_node → Option Int
  | .union u => u.get_select_id
  | .select s => some s.get_select_id
  | .basic_join j => some j.get_select_id
  | .update u => some u.get_select_id
  | .delete d => some d.get_select_id
  | .insert i => some i.get_select_id

/-- The select id that a call adds to `union_members`, if it adds one. -/
def Union_call.member : Union_call → Option Int
  | .add_select n => some n
  | .add_child _ => none

/-- Storage for an `Explain_union` filled with zero bytes. -/
def Explain_union.zeroed : Explain_union :=
  { connection_type := .EXPLAIN_NODE_OTHER, children := [], union_members := [],
    fake_select_type := "", using_filesort := false, using_tmp := false,
    fake_select_lex_tracker := ⟨0, 0, 0⟩, tmptable_read_tracker := ⟨0, 0, 0⟩ }

/-- The constructor `Explain_select(MEM_ROOT *root)`, which runs the one of
`Explain_basic_join`; the members it does not initialise (`select_id` among
them) keep what the storage `raw` held. -/
def Explain_select.new (raw : Explain_select) : Explain_select :=
  { raw with
    children := []
    join_tabs := []
    message := none
    using_temporary := false
    using_filesort := false
    using_temporary_read_tracker := Table_access_tracker.new }

/-- Storage for an `Explain_select` filled with zero bytes. -/
def Explain_select.zeroed : Explain_select :=
  { connection_type := .EXPLAIN_NODE_OTHER, children := [], select_id := 0,
    join_tabs := [], select_type := "", message := none, exec_const_cond := none,
    using_temporary := false, using_filesort := false,
    using_temporary_read_tracker := ⟨0, 0, 0⟩ }

/-- Storage for an `Explain_update` filled with zero bytes. -/
def Explain_update.zeroed : Explain_update :=
  { connection_type := .EXPLAIN_NODE_OTHER, children := [], select_type := "",
    used_partitions := "", used_partitions_set := false, impossible_where := false,
    no_partitions := false, table_name := "", jtype := 0, possible_keys := [],
    key := { key_name := none, key_len := 0, key_parts_list := [] }, mrr_type := "",
    quick_info := none, using_where := false, where_cond := none, rows := 0,
    using_filesort := false, using_io_buffer := false, tracker := ⟨0, 0, 0⟩ }

/-- Storage for an `Explain_insert` filled with zero bytes. -/
def Explain_insert.zeroed : Explain_insert :=
  { connection_type := .EXPLAIN_NODE_OTHER, children := [], table_name := "" }

/-- Storage for an `Explain_delete` filled with zero bytes. -/
def Explain_delete.zeroed : Explain_delete :=
  { Explain_update.zeroed with deleting_all_rows := false }

/-! ## Explain_query -/

/-- What an `Explain_update*` points to: `Explain_delete` inherits from
`Explain_update`. -/
inductive Upd_del_plan where
  | update (u : Explain_update)
  | delete (d : Explain_delete)

/-- The object behind an `Explain_update*`, seen as an `Explain_node`. -/
def Upd_del_plan.toNode : Upd_del_plan → Explain_node
  | .update u => .update u
  | .delete d => .delete d

/-- The data members of `class Explain_query` that hold the plan; a null
pointer is `none`, and the two arrays hold one pointer per select id. -/
structure Explain_query where
  upd_del_plan : Option Upd_del_plan
  insert_plan : Option Explain_insert
  unions : List (Option Explain_union)
  selects : List (Option Explain_select)
  operations : Int

namespace Explain_query

/-- Modelled from the spec: the body of `Explain_query::get_union`, which is
declared in `sql_explain.h` and defined outside the sources. The plan "holds a
mapping from select-id to node" and its nodes are "indexed by id":
`get_union(id)` is the union registered under `id`, if any. -/
def get_union (q : Explain_query) (select_id : Nat) : Option Explain_union :=
  (q.unions.get? select_id).join

/-- Modelled from the spec: the body of `Explain_query::get_select`, which is
declared in `sql_explain.h` and defined outside the sources: the select
registered under `id`, if any. -/
def get_select (q : Explain_query) (select_id : Nat) : Option Explain_select :=
  (q.selects.get? select_id).join

/-- Modelled from the spec: the body of `Explain_query::get_node`, which is
declared in `sql_explain.h` ("This will return a select, or a union") and
defined outside the sources: `get_node(id) -> Option<&PlanNode>`, "not found"
on an id under which no node is registered. -/
def get_node (q : Explain_query) (select_id : Nat) : Option Explain_node :=
  match q.get_union select_id with
  | some u => some (.union u)
  | none => (q.get_select select_id).map Explain_node.select

/-- The method `have_query_plan`:
`return insert_plan || upd_del_plan|| get_node(1) != NULL;`. -/
def have_query_plan (q : Explain_query) : Bool :=
  q.insert_plan.isSome || q.upd_del_plan.isSome || (q.get_node 1).isSome

/-- The method `get_upd_del_plan`. -/
def get_upd_del_plan (q : Explain_query) : Option Upd_del_plan :=
  q.upd_del_plan

/-- Modelled from the spec: the constructor `Explain_query(THD*, MEM_ROOT*)`,
which is declared in `sql_explain.h` and defined outside the sources. A plan
starts with no DML plan and no node, and its insertion counter at zero. -/
def new : Explain_query :=
  { upd_del_plan := none, insert_plan := none, unions := [], selects := [],
    operations := 0 }

/-- The array `arr` with the pointer `x` stored in slot `i`; an array that is
too short is first extended with null pointers up to slot `i`. -/
def set_at {α : Type} (arr : List (Option α)) (i : Nat) (x : α) : List (Option α) :=
  (arr ++ List.replicate (i + 1 - arr.length) none).set i (some x)

/-- Modelled from the spec: the body of `Explain_query::add_node`, which is
declared in `sql_explain.h` and defined outside the sources. "`add_node(node)`
— fails (precondition violation, not a recoverable error) if `select_id`
already present"; otherwise the node is registered under its select id and
the "strictly-increasing insertion counter" goes up by one. The plan keeps
unions and selects (the arrays `unions` and `selects`); a node of another
class is not registered, nor is one whose `get_select_id()` fails its
assertion or is negative (`get_node` takes the id as a `uint`). A failed call
is `none`. -/
def add_node (q : Explain_query) (node : Explain_node) : Option Explain_query :=
  match node with
  | .union u =>
    match u.get_select_id with
    | none => none
    | some id =>
      if id < 0 then none
      else if (q.get_node id.toNat).isSome then none
      else some { q with unions := set_at q.unions id.toNat u,
                         operations := q.operations + 1 }
  | .select s =>
    if s.get_select_id < 0 then none
    else if (q.get_node s.get_select_id.toNat).isSome then none
    else some { q with selects := set_at q.selects s.get_select_id.toNat s,
                       operations := q.operations + 1 }
  | _ => none

/-- The plan after `add_node` was called on each node of `nodes`, first node
first; `none` as soon as one call fails. -/
def add_nodes (q : Explain_query) : List Explain_node → Option Explain_query
  | [] => some q
  | node :: nodes =>
    match q.add_node node with
    | none => none
    | some q1 => q1.add_nodes nodes

end Explain_query

/-- A node that `add_node` registers: a union or a select, with `id` the select
id that `get_node` takes. -/
def registers_as (node : Explain_node) (id : Nat) : Prop :=
  (node.get_type = .EXPLAIN_UNION ∨ node.get_type = .EXPLAIN_SELECT) ∧
  node.get_select_id = some (id : Int)

end SqlExplain

/-! ## The file key lookup -/

namespace FileKeyManagement

/-- The record `keyentry` (declared in `parser.h`, outside the sources), with
the three members the lookup reads: `id`, the bytes of the array `key`, and
`length`. -/
structure keyentry where
  id : Nat
  key : List Nat
  length : Nat
deriving DecidableEq

/-- What stops a run of the embedded code short of a result. -/
inductive Fault where
  | out_of_bounds
  | out_of_fuel
deriving DecidableEq

/-- A pointer into the array `keys` is the index of the element it points to;
`none` is the null pointer. -/
abbrev keyentry_ptr := Option Nat

deriving instance DecidableEq for Except

/-- The loop of `get_key` and the return that follows it, with `a` and `b`
the indices the two pointers stand at. Every `c->id` and `a->id` is a read of
`keys`, and a read outside the array is the fault `out_of_bounds`. One unit of
`fuel` pays for one round of the loop. -/
def get_key_loop (keys : List keyentry) (key_id : Nat) :
    Nat → Nat → Nat → Except Fault keyentry_ptr
  | fuel, a, b =>
    if b - a > 1 then
      match fuel with
      | 0 => .error .out_of_fuel
      | fuel + 1 =>
        let c := a + (b - a) / 2
        match keys.get? c with
        | none => .error .out_of_bounds
        | some ce =>
          if ce.id = key_id then .ok (some c)
          else if ce.id < key_id then get_key_loop keys key_id fuel c b
          else get_key_loop keys key_id fuel a c
    else
      match keys.get? a with
      | none => .error .out_of_bounds
      | some ae => if ae.id = key_id then .ok (some a) else .ok none

/-- The function `get_key`: `a= keys.front()`, `b= keys.back() + 1`, then the
loop. The interval `b - a` shrinks in every round, so `keys.length` rounds
are enough fuel. -/
def get_key (keys : List keyentry) (key_id : Nat) : Except Fault keyentry_ptr :=
  get_key_loop keys key_id keys.length 0 keys.length

/-- The function `get_highest_key_used_in_key_file`: `return 0;`. -/
def get_highest_key_used_in_key_file : Nat :=
  0

/-- The call `memcpy(dst, src, n)` on buffers given by their bytes: the first
`n` bytes of `dst` become the first `n` bytes of `src`. Reading past `src` or
writing past `dst` is the fault `out_of_bounds`. -/
def memcpy (dst src : List Nat) (n : Nat) : Except Fault (List Nat) :=
  if n ≤ src.length ∧ n ≤ dst.length then .ok (src.take n ++ dst.drop n)
  else .error .out_of_bounds

/-- The two result codes that `get_key_from_key_file` names. They are defined
by a header outside the sources, so their values are parameters. -/
structure Encryption_codes where
  ENCRYPTION_KEY_BAD_VERSION : Nat
  ENCRYPTION_KEY_BUFFER_TOO_SMALL : Nat
deriving DecidableEq

/-- What a call of `get_key_from_key_file` leaves behind: the value returned,
the bytes of the destination buffer (`none` for a null `dstbuf`) and `*buflen`. -/
structure Key_file_result where
  rc : Nat
  dstbuf : Option (List Nat)
  buflen : Nat
deriving DecidableEq

/-- The function `get_key_from_key_file`; `buflen` is the value of `*buflen`
at the call. -/
def get_key_from_key_file (E : Encryption_codes) (keys : List keyentry)
    (key_id : Nat) (dstbuf : Option (List Nat)) (buflen : Nat) :
    Except Fault Key_file_result :=
  match get_key keys key_id with
  | .error f => .error f
  | .ok none => .ok { rc := E.ENCRYPTION_KEY_BAD_VERSION, dstbuf := dstbuf, buflen := buflen }
  | .ok (some i) =>
    match keys.get? i with
    | none => .error .out_of_bounds
    | some entry =>
      if buflen < entry.length then
        .ok { rc := E.ENCRYPTION_KEY_BUFFER_TOO_SMALL, dstbuf := dstbuf,
              buflen := entry.length }
      else
        match dstbuf with
        | none => .ok { rc := 0, dstbuf := none, buflen := entry.length }
        | some d =>
          match memcpy d entry.key entry.length with
          | .error f => .error f
          | .ok d1 => .ok { rc := 0, dstbuf := some d1, buflen := entry.length }

/-- The key table is sorted by strictly ascending id. -/
def sorted_by_id (keys : List keyentry) : Prop :=
  keys.Pairwise (fun x y => x.id < y.id)

instance (keys : List keyentry) : Decidable (sorted_by_id keys) := by
  unfold sorted_by_id
  infer_instance

end FileKeyManagement

/-! # Theorems -/

namespace SqlExplain
open Table_access_tracker

/-! ## Counters after a run of calls -/

theorem apply_r_scans (w : Nat) (t : Table_access_tracker) (op : Tracker_call) :
    (op.apply w t).r_scans =
      if op = .on_scan_init then (t.r_scans + 1) % 2 ^ w else t.r_scans := by
  cases op <;> simp [Tracker_call.apply, on_scan_init, on_record_read, on_record_after_where]

theorem apply_r_rows (w : Nat) (t : Table_access_tracker) (op : Tracker_call) :
    (op.apply w t).r_rows =
      if op = .on_record_read then (t.r_rows + 1) % 2 ^ w else t.r_rows := by
  cases op <;> simp [Tracker_call.apply, on_scan_init, on_record_read, on_record_after_where]

theorem run_nil (w : Nat) (t : Table_access_tracker) : run w [] t = t := rfl

theorem run_cons (w : Nat) (op : Tracker_call) (ops : List Tracker_call)
    (t : Table_access_tracker) : run w (op :: ops) t = run w ops (op.apply w t) := rfl

/-- Modulo the counter range, a run adds to `r_scans` the number of its
`on_scan_init` calls. -/
theorem run_r_scans_mod (w : Nat) (ops : List Tracker_call) (t : Table_access_tracker) :
    (run w ops t).r_scans % 2 ^ w = (t.r_scans + ops.count .on_scan_init) % 2 ^ w := by
  induction ops generalizing t with
  | nil => simp [run_nil]
  | cons op ops ih =>
    rw [run_cons, ih, apply_r_scans]
    by_cases h : op = .on_scan_init
    · subst h
      simp only [if_true, List.count_cons_self]
      rw [Nat.add_mod, Nat.mod_mod, ← Nat.add_mod]
      congr 1
      omega
    · have h2 : (op == Tracker_call.on_scan_init) = false := by simpa using h
      simp [h, List.count_cons, h2]

theorem run_r_rows_mod (w : Nat) (ops : List Tracker_call) (t : Table_access_tracker) :
    (run w ops t).r_rows % 2 ^ w = (t.r_rows + ops.count .on_record_read) % 2 ^ w := by
  induction ops generalizing t with
  | nil => simp [run_nil]
  | cons op ops ih =>
    rw [run_cons, ih, apply_r_rows]
    by_cases h : op = .on_record_read
    · subst h
      simp only [if_true, List.count_cons_self]
      rw [Nat.add_mod, Nat.mod_mod, ← Nat.add_mod]
      congr 1
      omega
    · have h2 : (op == Tracker_call.on_record_read) = false := by simpa using h
      simp [h, List.count_cons, h2]

/-- A run keeps `r_scans` inside the counter range. -/
theorem run_r_scans_lt (w : Nat) (ops : List Tracker_call) (t : Table_access_tracker)
    (h : t.r_scans < 2 ^ w) : (run w ops t).r_scans < 2 ^ w := by
  induction ops generalizing t with
  | nil => simpa [run_nil] using h
  | cons op ops ih =>
    rw [run_cons]
    apply ih
    rw [apply_r_scans]
    split
    · exact Nat.mod_lt _ (Nat.pos_pow_of_pos w (by decide))
    · exact h

theorem run_r_rows_lt (w : Nat) (ops : List Tracker_call) (t : Table_access_tracker)
    (h : t.r_rows < 2 ^ w) : (run w ops t).r_rows < 2 ^ w := by
  induction ops generalizing t with
  | nil => simpa [run_nil] using h
  | cons op ops ih =>
    rw [run_cons]
    apply ih
    rw [apply_r_rows]
    split
    · exact Nat.mod_lt _ (Nat.pos_pow_of_pos w (by decide))
    · exact h

/-- On a fresh tracker `r_scans` is the number of `on_scan_init` calls, reduced
modulo the counter range. -/
theorem run_new_r_scans (w : Nat) (ops : List Tracker_call) :
    (run w ops new).r_scans = ops.count .on_scan_init % 2 ^ w := by
  have h := run_r_scans_mod w ops new
  rw [Nat.mod_eq_of_lt (run_r_scans_lt w ops new (by simp [new]))] at h
  simpa [new] using h

theorem run_new_r_rows (w : Nat) (ops : List Tracker_call) :
    (run w ops new).r_rows = ops.count .on_record_read % 2 ^ w := by
  have h := run_r_rows_mod w ops new
  rw [Nat.mod_eq_of_lt (run_r_rows_lt w ops new (by simp [new]))] at h
  simpa [new] using h

/-- Claim C1, as the code has it: on a fresh tracker whose counters are `w`
bits wide, after calls of which `k` are `on_scan_init` and `r` are
`on_record_read`, in any order and with any number of `on_record_after_where`
calls among them, and with `k` and `r` below `2 ^ w` (no counter has wrapped),
`get_avg_rows` is `r / k` when `k > 0` and `0` when `k = 0`. -/
theorem get_avg_rows_after_calls (w : Nat) (ops : List Tracker_call) (k r : Nat)
    (hk : ops.count .on_scan_init = k) (hr : ops.count .on_record_read = r)
    (hkw : k < 2 ^ w) (hrw : r < 2 ^ w) :
    (run w ops new).get_avg_rows = if 0 < k then (r : ℚ) / (k : ℚ) else 0 := by
  unfold get_avg_rows
  rw [run_new_r_scans, run_new_r_rows, hk, hr, Nat.mod_eq_of_lt hkw, Nat.mod_eq_of_lt hrw]
  by_cases h : k = 0
  · simp [h]
  · simp [h, Nat.pos_of_ne_zero h]

theorem get_avg_rows_after_calls_witness :
    (run 64 [.on_scan_init, .on_record_read, .on_record_read, .on_record_after_where,
        .on_scan_init, .on_record_read] new).get_avg_rows
      = if 0 < 2 then ((3 : Nat) : ℚ) / ((2 : Nat) : ℚ) else 0 :=
  get_avg_rows_after_calls 64 _ 2 3 (by decide) (by decide) (by decide) (by decide)

/-- Claim C1 fails as stated: `2 ^ 64` calls of `on_scan_init` and one call of
`on_record_read` on a fresh tracker with 64-bit counters wrap `r_scans` to
zero, and `get_avg_rows` is `0`, not `1 / 2 ^ 64`. -/
theorem get_avg_rows_wraps :
    (List.replicate (2 ^ 64) Tracker_call.on_scan_init ++ [Tracker_call.on_record_read]).count
        Tracker_call.on_scan_init = 2 ^ 64 ∧
    (List.replicate (2 ^ 64) Tracker_call.on_scan_init ++ [Tracker_call.on_record_read]).count
        Tracker_call.on_record_read = 1 ∧
    (run 64 (List.replicate (2 ^ 64) Tracker_call.on_scan_init ++ [Tracker_call.on_record_read])
        new).get_avg_rows = 0 ∧
    (run 64 (List.replicate (2 ^ 64) Tracker_call.on_scan_init ++ [Tracker_call.on_record_read])
        new).get_avg_rows ≠ ((1 : Nat) : ℚ) / ((2 ^ 64 : Nat) : ℚ) := by
  have hc : (List.replicate (2 ^ 64) Tracker_call.on_scan_init ++ [Tracker_call.on_record_read]).count
        Tracker_call.on_scan_init = 2 ^ 64 := by
    rw [List.count_append, List.count_replicate_self]
    simp
  have h0 : (run 64 (List.replicate (2 ^ 64) Tracker_call.on_scan_init ++ [Tracker_call.on_record_read])
        new).get_avg_rows = 0 := by
    unfold get_avg_rows
    rw [run_new_r_scans, hc]
    simp
  refine ⟨hc, ?_, h0, ?_⟩
  · rw [List.count_append, List.count_replicate]
    simp
  · rw [h0]
    norm_num

/-- Claim C2: in every tracker state `get_filtered_after_where` is
`r_rows_after_where / r_rows` when `r_rows > 0` and `1` when `r_rows = 0`,
whatever `r_rows_after_where` is; with `r_rows = 10` and
`r_rows_after_where = 3` it is `3 / 10`. -/
theorem get_filtered_after_where_spec (t : Table_access_tracker) :
    (0 < t.r_rows →
      t.get_filtered_after_where = (t.r_rows_after_where : ℚ) / (t.r_rows : ℚ)) ∧
    (t.r_rows = 0 → t.get_filtered_after_where = 1) ∧
    (t.r_rows = 10 → t.r_rows_after_where = 3 → t.get_filtered_after_where = 3 / 10) := by
  refine ⟨fun h => ?_, fun h => ?_, fun h h3 => ?_⟩
  · simp [get_filtered_after_where, h]
  · simp [get_filtered_after_where, h]
  · simp [get_filtered_after_where, h, h3]

theorem get_filtered_after_where_spec_witness :
    (0 < 10 ∧
      (Table_access_tracker.mk 4 10 3).get_filtered_after_where
        = ((3 : Nat) : ℚ) / ((10 : Nat) : ℚ)) ∧
    (Table_access_tracker.mk 4 0 7).get_filtered_after_where = 1 ∧
    (Table_access_tracker.mk 4 10 3).get_filtered_after_where = 3 / 10 :=
  ⟨⟨by decide, (get_filtered_after_where_spec ⟨4, 10, 3⟩).1 (by decide)⟩,
   (get_filtered_after_where_spec ⟨4, 0, 7⟩).2.1 rfl,
   (get_filtered_after_where_spec ⟨4, 10, 3⟩).2.2 rfl rfl⟩

theorem apply_keeps_r_scans (w : Nat) (t : Table_access_tracker) (op : Tracker_call)
    (h : op ≠ .on_scan_init) : (op.apply w t).r_scans = t.r_scans := by
  rw [apply_r_scans, if_neg h]

theorem run_keeps_r_scans (w : Nat) (ops : List Tracker_call) (t : Table_access_tracker)
    (h : ∀ op ∈ ops, op ≠ Tracker_call.on_scan_init) :
    (run w ops t).r_scans = t.r_scans := by
  induction ops generalizing t with
  | nil => rfl
  | cons op ops ih =>
    rw [run_cons, ih _ (fun o ho => h o (List.mem_cons_of_mem _ ho)),
      apply_keeps_r_scans w t op (h op (List.mem_cons_self _ _))]

/-- Claim C3: a tracker whose `r_scans` is zero has `has_scans() = false` and
`get_avg_rows() = 0`; that covers the fresh tracker and every tracker reached
from it by `on_record_read` and `on_record_after_where` calls only; and
`has_scans()` is true exactly when `r_scans` is not zero. -/
theorem has_scans_spec (w : Nat) (t : Table_access_tracker) (ops : List Tracker_call) :
    (t.r_scans = 0 → t.has_scans = false ∧ t.get_avg_rows = 0) ∧
    (new.has_scans = false ∧ new.get_avg_rows = 0) ∧
    ((∀ op ∈ ops, op ≠ Tracker_call.on_scan_init) →
      (run w ops new).has_scans = false ∧ (run w ops new).get_avg_rows = 0) ∧
    (t.has_scans = true ↔ t.r_scans ≠ 0) := by
  have key : ∀ s : Table_access_tracker, s.r_scans = 0 →
      s.has_scans = false ∧ s.get_avg_rows = 0 := by
    intro s hs
    simp [has_scans, get_avg_rows, hs]
  refine ⟨key t, key new rfl, fun h => key _ ?_, ?_⟩
  · rw [run_keeps_r_scans w ops new h]
    rfl
  · simp [has_scans]

theorem has_scans_spec_witness :
    ((Table_access_tracker.mk 0 5 2).has_scans = false ∧
      (Table_access_tracker.mk 0 5 2).get_avg_rows = 0) ∧
    ((run 64 [.on_record_read, .on_record_after_where, .on_record_read] new).has_scans
        = false ∧
      (run 64 [.on_record_read, .on_record_after_where, .on_record_read] new).get_avg_rows
        = 0) ∧
    ((Table_access_tracker.mk 3 5 2).has_scans = true ↔
      (Table_access_tracker.mk 3 5 2).r_scans ≠ 0) :=
  ⟨(has_scans_spec 64 ⟨0, 5, 2⟩ []).1 rfl,
   (has_scans_spec 64 ⟨0, 5, 2⟩
      [.on_record_read, .on_record_after_where, .on_record_read]).2.2.1 (by decide),
   (has_scans_spec 64 ⟨3, 5, 2⟩ []).2.2.2⟩

/-- Claim C4: on counters `w` bits wide, each of `on_scan_init`,
`on_record_read` and `on_record_after_where` adds one, modulo `2 ^ w`, to its
own counter (`r_scans`, `r_rows`, `r_rows_after_where`) and leaves the other
two counters as they were. -/
theorem tracker_calls_frame (w : Nat) (t : Table_access_tracker) :
    ((t.on_scan_init w).r_scans = (t.r_scans + 1) % 2 ^ w ∧
      (t.on_scan_init w).r_rows = t.r_rows ∧
      (t.on_scan_init w).r_rows_after_where = t.r_rows_after_where) ∧
    ((t.on_record_read w).r_scans = t.r_scans ∧
      (t.on_record_read w).r_rows = (t.r_rows + 1) % 2 ^ w ∧
      (t.on_record_read w).r_rows_after_where = t.r_rows_after_where) ∧
    ((t.on_record_after_where w).r_scans = t.r_scans ∧
      (t.on_record_after_where w).r_rows = t.r_rows ∧
      (t.on_record_after_where w).r_rows_after_where
        = (t.r_rows_after_where + 1) % 2 ^ w) :=
  ⟨⟨rfl, rfl, rfl⟩, ⟨rfl, rfl, rfl⟩, ⟨rfl, rfl, rfl⟩⟩

/-- Claim C5: `is_basic()` of an `Explain_quick_select` built with type tag
`t` is true exactly when `t` is `QS_TYPE_RANGE`, `QS_TYPE_RANGE_DESC` or
`QS_TYPE_GROUP_MIN_MAX`, and false for every other tag. -/
theorem is_basic_iff (E : QUICK_SELECT_I) (uint_max : Nat) (t : Int) :
    ((Explain_quick_select.new uint_max t).is_basic E = true ↔
      (t = E.QS_TYPE_RANGE ∨ t = E.QS_TYPE_RANGE_DESC ∨ t = E.QS_TYPE_GROUP_MIN_MAX)) ∧
    ((t ≠ E.QS_TYPE_RANGE ∧ t ≠ E.QS_TYPE_RANGE_DESC ∧ t ≠ E.QS_TYPE_GROUP_MIN_MAX) →
      (Explain_quick_select.new uint_max t).is_basic E = false) := by
  constructor
  · simp [Explain_quick_select.is_basic, Explain_quick_select.new,
      Explain_quick_select.quick_type, or_assoc]
  · rintro ⟨h1, h2, h3⟩
    simp [Explain_quick_select.is_basic, Explain_quick_select.new,
      Explain_quick_select.quick_type, h1, h2, h3]

theorem is_basic_iff_witness :
    ((Explain_quick_select.new 4294967295 3).is_basic ⟨0, 3, 7⟩ = true ↔
      ((3 : Int) = 0 ∨ (3 : Int) = 3 ∨ (3 : Int) = 7)) ∧
    (Explain_quick_select.new 4294967295 6).is_basic ⟨0, 3, 7⟩ = false :=
  ⟨(is_basic_iff ⟨0, 3, 7⟩ 4294967295 3).1,
   (is_basic_iff ⟨0, 3, 7⟩ 4294967295 6).2 (by decide)⟩

/-! ## Explain_union -/

theorem add_select_foldl_members (ms : List Int) (u : Explain_union) :
    (ms.foldl Explain_union.add_select u).union_members = u.union_members ++ ms := by
  induction ms generalizing u with
  | nil => simp
  | cons m ms ih => simp [ih, Explain_union.add_select]

/-- Claim C6: after the select ids of a non-empty sequence were added with
`add_select`, in order, to a freshly constructed `Explain_union`, the
assertion of `get_select_id()` holds (the member list is not empty) and the
call returns the first id added; members `[2, 3]` give `2`. -/
theorem get_select_id_first_member (raw : Explain_union) (ms : List Int) (h : ms ≠ []) :
    0 < (ms.foldl Explain_union.add_select (Explain_union.new raw)).union_members.length ∧
    (ms.foldl Explain_union.add_select (Explain_union.new raw)).get_select_id
      = some (ms.head h) := by
  cases ms with
  | nil => exact absurd rfl h
  | cons m ms =>
    have hm := add_select_foldl_members (m :: ms) (Explain_union.new raw)
    simp only [Explain_union.get_select_id, hm]
    simp [Explain_union.new]

theorem get_select_id_first_member_witness :
    0 < (([2, 3] : List Int).foldl Explain_union.add_select
        (Explain_union.new Explain_union.zeroed)).union_members.length ∧
    (([2, 3] : List Int).foldl Explain_union.add_select
        (Explain_union.new Explain_union.zeroed)).get_select_id = some 2 :=
  get_select_id_first_member Explain_union.zeroed [2, 3] (by decide)

theorem apply_union_members (u : Explain_union) (op : Union_call) :
    (op.apply u).union_members = u.union_members ++ op.member.toList := by
  cases op <;>
    simp [Union_call.apply, Union_call.member, Explain_union.add_select,
      Explain_union.add_child]

theorem run_union_members (ops : List Union_call) (u : Explain_union) :
    (Explain_union.run ops u).union_members
      = u.union_members ++ ops.filterMap Union_call.member := by
  induction ops generalizing u with
  | nil => simp [Explain_union.run]
  | cons op ops ih =>
    have hstep : Explain_union.run (op :: ops) u = Explain_union.run ops (op.apply u) := rfl
    rw [hstep, ih, apply_union_members]
    cases hop : op.member <;> simp [List.filterMap_cons, hop]

/-- Claim C7 fails as stated: constructing an `Explain_union` succeeds and
leaves the member list empty, `add_child` calls keep it empty, and in that
state the assertion of `get_select_id()` fails. -/
theorem explain_union_new_has_no_members :
    (Explain_union.new Explain_union.zeroed).union_members = [] ∧
    (Explain_union.run [Union_call.add_child 4, Union_call.add_child 5]
        (Explain_union.new Explain_union.zeroed)).union_members = [] ∧
    (Explain_union.new Explain_union.zeroed).get_select_id = none := by
  decide

/-- Claim C7, as the code has it: the constructor of `Explain_union` never
fails and leaves the member list empty; after any `add_select` and `add_child`
calls the member list holds the arguments of the `add_select` calls in call
order, so it is non-empty exactly when `add_select` was called at least once;
and neither call empties a non-empty member list. -/
theorem union_members_after_calls (raw : Explain_union) (ops : List Union_call) :
    (Explain_union.new raw).union_members = [] ∧
    (Explain_union.run ops (Explain_union.new raw)).union_members
      = ops.filterMap Union_call.member ∧
    ((Explain_union.run ops (Explain_union.new raw)).union_members ≠ [] ↔
      ∃ n, Union_call.add_select n ∈ ops) ∧
    (∀ (u : Explain_union) (op : Union_call),
      u.union_members ≠ [] → (op.apply u).union_members ≠ []) := by
  have hrun : (Explain_union.run ops (Explain_union.new raw)).union_members
      = ops.filterMap Union_call.member := by
    rw [run_union_members]
    simp [Explain_union.new]
  refine ⟨rfl, hrun, ?_, ?_⟩
  · rw [hrun]
    constructor
    · intro hne
      obtain ⟨n, hn⟩ := List.exists_mem_of_ne_nil _ hne
      obtain ⟨op, hop, hmem⟩ := List.mem_filterMap.mp hn
      cases op with
      | add_select k => exact ⟨k, hop⟩
      | add_child k => simp [Union_call.member] at hmem
    · rintro ⟨n, hn⟩
      have : n ∈ ops.filterMap Union_call.member :=
        List.mem_filterMap.mpr ⟨_, hn, rfl⟩
      exact List.ne_nil_of_mem this
  · intro u op hne
    rw [apply_union_members]
    simp [hne]

theorem union_members_after_calls_witness :
    (Explain_union.run [Union_call.add_child 4, Union_call.add_select 2,
        Union_call.add_select 3] (Explain_union.new Explain_union.zeroed)).union_members
      = [2, 3] ∧
    ((Union_call.add_child 7).apply
        (Explain_union.add_select (Explain_union.new Explain_union.zeroed) 2)).union_members
      ≠ [] :=
  ⟨(union_members_after_calls Explain_union.zeroed
      [Union_call.add_child 4, Union_call.add_select 2, Union_call.add_select 3]).2.1,
   (union_members_after_calls Explain_union.zeroed []).2.2.2 _ _ (by decide)⟩

/-! ## Single-table DML nodes -/

/-- Claim C8: whatever the members of an `Explain_update`, `Explain_delete` or
`Explain_insert` hold, `get_select_id()` returns `1`, also through an
`Explain_node*`, and `get_type()` returns `EXPLAIN_UPDATE`, `EXPLAIN_DELETE`
and `EXPLAIN_INSERT`; an `Explain_delete` reached through an `Explain_update*`
still reports `EXPLAIN_DELETE`. -/
theorem dml_select_id_and_type (u : Explain_update) (d : Explain_delete)
    (i : Explain_insert) :
    (u.get_select_id = 1 ∧ d.get_select_id = 1 ∧ i.get_select_id = 1) ∧
    ((Explain_node.update u).get_select_id = some 1 ∧
      (Explain_node.delete d).get_select_id = some 1 ∧
      (Explain_node.insert i).get_select_id = some 1) ∧
    ((Explain_node.update u).get_type = .EXPLAIN_UPDATE ∧
      (Explain_node.delete d).get_type = .EXPLAIN_DELETE ∧
      (Explain_node.insert i).get_type = .EXPLAIN_INSERT) ∧
    ((Upd_del_plan.delete d).toNode.get_type = .EXPLAIN_DELETE ∧
      (Upd_del_plan.delete d).toNode.get_type ≠ .EXPLAIN_UPDATE ∧
      (Upd_del_plan.update u).toNode.get_type = .EXPLAIN_UPDATE) :=
  ⟨⟨rfl, rfl, rfl⟩, ⟨rfl, rfl, rfl⟩, ⟨rfl, rfl, rfl⟩,
   ⟨rfl, explain_node_type.noConfusion, rfl⟩⟩

/-! ## Explain_query -/

/-- Claim C9: `have_query_plan()` is true exactly when an insert plan is
registered, or an update/delete plan is registered, or `get_node(1)` finds a
node; with no DML plan and no node found under id 1 it is false, whatever is
registered under other ids. -/
theorem have_query_plan_iff (q : Explain_query) :
    (q.have_query_plan = true ↔
      (q.insert_plan.isSome = true ∨ q.upd_del_plan.isSome = true ∨
        (q.get_node 1).isSome = true)) ∧
    (q.insert_plan = none → q.upd_del_plan = none → q.get_node 1 = none →
      q.have_query_plan = false) := by
  constructor
  · simp [Explain_query.have_query_plan, or_assoc]
  · intro hi hu hn
    simp [Explain_query.have_query_plan, hi, hu, hn]

theorem have_query_plan_iff_witness :
    ((Explain_query.mk none none [] [none, none, some Explain_select.zeroed] 1).get_node 2
      ).isSome = true ∧
    (Explain_query.mk none none [] [none, none, some Explain_select.zeroed] 1
      ).have_query_plan = false ∧
    (Explain_query.mk none none [] [none, some Explain_select.zeroed] 1
      ).have_query_plan = true ∧
    (Explain_query.mk none (some Explain_insert.zeroed) [] [] 1).have_query_plan = true :=
  ⟨rfl,
   (have_query_plan_iff ⟨none, none, [], [none, none, some Explain_select.zeroed], 1⟩).2
      rfl rfl rfl,
   (have_query_plan_iff ⟨none, none, [], [none, some Explain_select.zeroed], 1⟩).1.mpr
      (Or.inr (Or.inr rfl)),
   (have_query_plan_iff ⟨none, some Explain_insert.zeroed, [], [], 1⟩).1.mpr (Or.inl rfl)⟩

end SqlExplain

namespace FileKeyManagement

/-! ## The key lookup -/

/-- In a table sorted by id, an entry further right has a larger id. -/
theorem sorted_get_lt (keys : List keyentry) (hs : sorted_by_id keys) (i j : Nat)
    (ei ej : keyentry) (hi : keys.get? i = some ei) (hj : keys.get? j = some ej)
    (hij : i < j) : ei.id < ej.id := by
  have h := List.pairwise_iff_getElem.mp hs
  rw [List.get?_eq_some] at hi hj
  obtain ⟨hil, rfl⟩ := hi
  obtain ⟨hjl, rfl⟩ := hj
  exact h i j hil hjl hij

theorem get_key_loop_unfold (keys : List keyentry) (key_id fuel a b : Nat) :
    get_key_loop keys key_id fuel a b =
      if b - a > 1 then
        match fuel with
        | 0 => .error .out_of_fuel
        | fuel + 1 =>
          match keys.get? (a + (b - a) / 2) with
          | none => .error .out_of_bounds
          | some ce =>
            if ce.id = key_id then .ok (some (a + (b - a) / 2))
            else if ce.id < key_id then get_key_loop keys key_id fuel (a + (b - a) / 2) b
            else get_key_loop keys key_id fuel a (a + (b - a) / 2)
      else
        match keys.get? a with
        | none => .error .out_of_bounds
        | some ae => if ae.id = key_id then .ok (some a) else .ok none := by
  cases fuel <;> rw [get_key_loop]

/-- The loop of `get_key` on a sorted table, started on a window `[a, b)` that
holds every index whose entry could have id `key_id`, and with fuel for the
rounds that are left: it ends on the index of the entry with that id, or on
the null pointer when no entry has it. -/
theorem get_key_loop_spec (keys : List keyentry) (hs : sorted_by_id keys) (key_id : Nat) :
    ∀ (fuel a b : Nat), a < b → b ≤ keys.length → b - a ≤ fuel + 1 →
      (∀ i e, i < a → keys.get? i = some e → e.id < key_id) →
      (∀ i e, b ≤ i → keys.get? i = some e → key_id < e.id) →
      (∃ i e, keys.get? i = some e ∧ e.id = key_id ∧
          get_key_loop keys key_id fuel a b = .ok (some i)) ∨
      ((∀ e ∈ keys, e.id ≠ key_id) ∧ get_key_loop keys key_id fuel a b = .ok none) := by
  intro fuel
  induction fuel with
  | zero =>
    intro a b hab hb hfuel hlo hhi
    have hba : ¬ (b - a > 1) := by omega
    obtain ⟨ae, hae⟩ : ∃ ae, keys.get? a = some ae :=
      ⟨keys.get ⟨a, by omega⟩, List.get?_eq_get _⟩
    rw [get_key_loop_unfold, if_neg hba, hae]
    by_cases hid : ae.id = key_id
    · left
      exact ⟨a, ae, hae, hid, by simp [hid]⟩
    · right
      refine ⟨?_, by simp [hid]⟩
      intro e he heq
      obtain ⟨i, hi⟩ := List.get?_of_mem he
      rcases Nat.lt_trichotomy i a with h | h | h
      · exact absurd heq (Nat.ne_of_lt (hlo i e h hi))
      · subst h
        rw [hae] at hi
        cases hi
        exact hid heq
      · exact absurd heq.symm (Nat.ne_of_lt (hhi i e (by omega) hi))
  | succ fuel ih =>
    intro a b hab hb hfuel hlo hhi
    by_cases hba : b - a > 1
    · have hc1 : a < a + (b - a) / 2 := by omega
      have hc2 : a + (b - a) / 2 < b := by omega
      obtain ⟨ce, hce⟩ : ∃ ce, keys.get? (a + (b - a) / 2) = some ce :=
        ⟨keys.get ⟨a + (b - a) / 2, by omega⟩, List.get?_eq_get _⟩
      rw [get_key_loop_unfold, if_pos hba]
      simp only [hce]
      by_cases hid : ce.id = key_id
      · left
        exact ⟨_, ce, hce, hid, by simp [hid]⟩
      · rw [if_neg hid]
        by_cases hlt : ce.id < key_id
        · rw [if_pos hlt]
          apply ih _ _ hc2 hb (by omega) _ hhi
          intro i e hi hie
          exact Nat.lt_trans (sorted_get_lt keys hs i _ e ce hie hce hi) hlt
        · rw [if_neg hlt]
          apply ih _ _ hc1 (by omega) (by omega) hlo
          intro i e hi hie
          have hgt : key_id < ce.id := by omega
          rcases Nat.eq_or_lt_of_le hi with h | h
          · subst h
            rw [hce] at hie
            cases hie
            exact hgt
          · exact Nat.lt_trans hgt (sorted_get_lt keys hs _ i ce e hce hie h)
    · obtain ⟨ae, hae⟩ : ∃ ae, keys.get? a = some ae :=
        ⟨keys.get ⟨a, by omega⟩, List.get?_eq_get _⟩
      rw [get_key_loop_unfold, if_neg hba, hae]
      by_cases hid : ae.id = key_id
      · left
        exact ⟨a, ae, hae, hid, by simp [hid]⟩
      · right
        refine ⟨?_, by simp [hid]⟩
        intro e he heq
        obtain ⟨i, hi⟩ := List.get?_of_mem he
        rcases Nat.lt_trichotomy i a with h | h | h
        · exact absurd heq (Nat.ne_of_lt (hlo i e h hi))
        · subst h
          rw [hae] at hi
          cases hi
          exact hid heq
        · exact absurd heq.symm (Nat.ne_of_lt (hhi i e (by omega) hi))

/-- The function `get_key` on a non-empty table sorted by id returns: the
index of the entry with id `key_id`, or the null pointer when no entry has
that id. -/
theorem get_key_spec (keys : List keyentry) (hne : keys ≠ []) (hs : sorted_by_id keys)
    (key_id : Nat) :
    (∃ i e, keys.get? i = some e ∧ e.id = key_id ∧ get_key keys key_id = .ok (some i)) ∨
    ((∀ e ∈ keys, e.id ≠ key_id) ∧ get_key keys key_id = .ok none) := by
  have hlen : 0 < keys.length := List.length_pos.mpr hne
  apply get_key_loop_spec keys hs key_id keys.length 0 keys.length hlen (Nat.le_refl _)
    (by omega)
  · intro i e hi
    omega
  · intro i e hi hie
    have := (List.get?_eq_some.mp hie).1
    omega

/-- In a table sorted by strictly ascending id, an id names one entry. -/
theorem sorted_id_unique (keys : List keyentry) (hs : sorted_by_id keys)
    (e1 e2 : keyentry) (h1 : e1 ∈ keys) (h2 : e2 ∈ keys) (hid : e1.id = e2.id) :
    e1 = e2 := by
  obtain ⟨i, hi⟩ := List.get?_of_mem h1
  obtain ⟨j, hj⟩ := List.get?_of_mem h2
  rcases Nat.lt_trichotomy i j with h | h | h
  · have := sorted_get_lt keys hs i j e1 e2 hi hj h
    omega
  · subst h
    rw [hi] at hj
    exact Option.some.inj hj
  · have := sorted_get_lt keys hs j i e2 e1 hj hi h
    omega

/-- An in-bounds `memcpy` succeeds; the buffer keeps its length, its first `n`
bytes are those of the source and the bytes behind them are untouched. -/
theorem memcpy_spec (dst src : List Nat) (n : Nat) (hsrc : n ≤ src.length)
    (hdst : n ≤ dst.length) :
    ∃ d1, memcpy dst src n = .ok d1 ∧ d1.length = dst.length ∧
      (∀ i, i < n → d1.get? i = src.get? i) ∧
      (∀ i, n ≤ i → d1.get? i = dst.get? i) := by
  refine ⟨src.take n ++ dst.drop n, ?_, ?_, ?_, ?_⟩
  · simp [memcpy, hsrc, hdst]
  · simp only [List.length_append, List.length_take, List.length_drop]
    omega
  · intro i hi
    have hlen : i < (src.take n).length := by
      rw [List.length_take]
      omega
    simp only [List.get?_eq_getElem?]
    rw [List.getElem?_append_left hlen, List.getElem?_take_of_lt hi]
  · intro i hi
    have hlen : (src.take n).length = n := by
      rw [List.length_take]
      omega
    simp only [List.get?_eq_getElem?]
    rw [List.getElem?_append_right (by omega), hlen, List.getElem?_drop]
    congr 1
    omega

/-- Claim C10: on a non-empty key table sorted by strictly ascending id, with
the three result codes distinct, key arrays that hold `length` bytes and a
destination buffer (when one is supplied) of at least `L = *buflen` bytes,
`get_key_from_key_file` returns, and returns `ENCRYPTION_KEY_BAD_VERSION`
exactly when no entry has id `key_id`, `ENCRYPTION_KEY_BUFFER_TOO_SMALL`
exactly when the entry with that id is longer than `L`, and `0` exactly when
that entry fits; on `0` a supplied buffer has the entry's key bytes in its
first `length` places and its other bytes unchanged. -/
theorem get_key_from_key_file_outcome (E : Encryption_codes)
    (hB : E.ENCRYPTION_KEY_BAD_VERSION ≠ 0) (hS : E.ENCRYPTION_KEY_BUFFER_TOO_SMALL ≠ 0)
    (hBS : E.ENCRYPTION_KEY_BAD_VERSION ≠ E.ENCRYPTION_KEY_BUFFER_TOO_SMALL)
    (keys : List keyentry) (hne : keys ≠ []) (hs : sorted_by_id keys)
    (hwf : ∀ e ∈ keys, e.length ≤ e.key.length)
    (key_id : Nat) (dstbuf : Option (List Nat)) (L : Nat)
    (hbuf : ∀ d, dstbuf = some d → L ≤ d.length) :
    ∃ res, get_key_from_key_file E keys key_id dstbuf L = .ok res ∧
      (res.rc = E.ENCRYPTION_KEY_BAD_VERSION ∨
        res.rc = E.ENCRYPTION_KEY_BUFFER_TOO_SMALL ∨ res.rc = 0) ∧
      (res.rc = E.ENCRYPTION_KEY_BAD_VERSION ↔ ∀ e ∈ keys, e.id ≠ key_id) ∧
      (res.rc = E.ENCRYPTION_KEY_BUFFER_TOO_SMALL ↔
        ∃ e ∈ keys, e.id = key_id ∧ L < e.length) ∧
      (res.rc = 0 ↔ ∃ e ∈ keys, e.id = key_id ∧ e.length ≤ L) ∧
      (∀ e ∈ keys, e.id = key_id → e.length ≤ L →
        (dstbuf = none → res.dstbuf = none) ∧
        (∀ d, dstbuf = some d → ∃ d1, res.dstbuf = some d1 ∧ d1.length = d.length ∧
          (∀ i, i < e.length → d1.get? i = e.key.get? i) ∧
          (∀ i, e.length ≤ i → d1.get? i = d.get? i))) := by
  rcases get_key_spec keys hne hs key_id with ⟨i, e, hget, hid, hkey⟩ | ⟨hnone, hkey⟩
  · have hmem : e ∈ keys := List.get?_mem hget
    have hget2 : keys[i]? = some e := by
      rw [← List.get?_eq_getElem?]
      exact hget
    have huniq : ∀ e2 ∈ keys, e2.id = key_id → e2 = e := fun e2 h2 hid2 =>
      sorted_id_unique keys hs e2 e h2 hmem (hid2.trans hid.symm)
    by_cases hL : L < e.length
    · refine ⟨⟨E.ENCRYPTION_KEY_BUFFER_TOO_SMALL, dstbuf, e.length⟩, ?_, ?_, ?_, ?_, ?_, ?_⟩
      · simp [get_key_from_key_file, hkey, hget2, hL]
      · exact Or.inr (Or.inl rfl)
      · constructor
        · intro h
          exact absurd h.symm hBS
        · intro h
          exact absurd hid (h e hmem)
      · constructor
        · intro _
          exact ⟨e, hmem, hid, hL⟩
        · intro _
          rfl
      · constructor
        · intro h
          exact absurd h hS
        · rintro ⟨e2, h2, hid2, hlen2⟩
          rw [huniq e2 h2 hid2] at hlen2
          omega
      · intro e2 h2 hid2 hlen2
        rw [huniq e2 h2 hid2] at hlen2
        omega
    · have hfit : e.length ≤ L := Nat.le_of_not_lt hL
      have hrest : ∀ res : Key_file_result, res.rc = 0 →
          (res.rc = E.ENCRYPTION_KEY_BAD_VERSION ∨
            res.rc = E.ENCRYPTION_KEY_BUFFER_TOO_SMALL ∨ res.rc = 0) ∧
          (res.rc = E.ENCRYPTION_KEY_BAD_VERSION ↔ ∀ e ∈ keys, e.id ≠ key_id) ∧
          (res.rc = E.ENCRYPTION_KEY_BUFFER_TOO_SMALL ↔
            ∃ e ∈ keys, e.id = key_id ∧ L < e.length) ∧
          (res.rc = 0 ↔ ∃ e ∈ keys, e.id = key_id ∧ e.length ≤ L) := by
        intro res hrc
        refine ⟨Or.inr (Or.inr hrc), ?_, ?_, ?_⟩
        · constructor
          · intro h
            exact absurd (h.symm.trans hrc) hB
          · intro h
            exact absurd hid (h e hmem)
        · constructor
          · intro h
            exact absurd (h.symm.trans hrc) hS
          · rintro ⟨e2, h2, hid2, hlen2⟩
            rw [huniq e2 h2 hid2] at hlen2
            omega
        · constructor
          · intro _
            exact ⟨e, hmem, hid, hfit⟩
          · intro _
            exact hrc
      cases hd : dstbuf with
      | none =>
        refine ⟨⟨0, none, e.length⟩, ?_, (hrest _ rfl).1, (hrest _ rfl).2.1,
          (hrest _ rfl).2.2.1, (hrest _ rfl).2.2.2, ?_⟩
        · simp [get_key_from_key_file, hkey, hget2, hL]
        · intro e2 h2 hid2 _
          exact ⟨fun _ => rfl, fun d hd2 => by cases hd2⟩
      | some d =>
        have hdL : L ≤ d.length := hbuf d hd
        obtain ⟨d1, hcpy, hlen, hfront, hback⟩ :=
          memcpy_spec d e.key e.length (hwf e hmem) (by omega)
        refine ⟨⟨0, some d1, e.length⟩, ?_, (hrest _ rfl).1, (hrest _ rfl).2.1,
          (hrest _ rfl).2.2.1, (hrest _ rfl).2.2.2, ?_⟩
        · simp [get_key_from_key_file, hkey, hget2, hL, hcpy]
        · intro e2 h2 hid2 _
          rw [huniq e2 h2 hid2]
          refine ⟨fun h => (by cases h), fun d2 hd2 => ?_⟩
          cases hd2
          exact ⟨d1, rfl, hlen, hfront, hback⟩
  · refine ⟨⟨E.ENCRYPTION_KEY_BAD_VERSION, dstbuf, L⟩, ?_, ?_, ?_, ?_, ?_, ?_⟩
    · simp [get_key_from_key_file, hkey]
    · exact Or.inl rfl
    · constructor
      · intro _
        exact hnone
      · intro _
        rfl
    · constructor
      · intro h
        exact absurd h hBS
      · rintro ⟨e2, h2, hid2, _⟩
        exact absurd hid2 (hnone e2 h2)
    · constructor
      · intro h
        exact absurd h hB
      · rintro ⟨e2, h2, hid2, _⟩
        exact absurd hid2 (hnone e2 h2)
    · intro e2 h2 hid2 _
      exact absurd hid2 (hnone e2 h2)

/-- The three outcomes on a table of three keys: id 5 is not in the table, the
key of id 1 does not fit in 3 bytes, and the key of id 4 is copied to the
front of a buffer of 3 bytes. -/
theorem get_key_from_key_file_examples :
    get_key_from_key_file ⟨4294967295, 100⟩
        [⟨1, [17, 18, 19, 20], 4⟩, ⟨4, [33, 34], 2⟩, ⟨7, [49, 50, 51], 3⟩] 5
        (some [0, 0, 0]) 3 = .ok ⟨4294967295, some [0, 0, 0], 3⟩ ∧
    get_key_from_key_file ⟨4294967295, 100⟩
        [⟨1, [17, 18, 19, 20], 4⟩, ⟨4, [33, 34], 2⟩, ⟨7, [49, 50, 51], 3⟩] 1
        (some [0, 0, 0]) 3 = .ok ⟨100, some [0, 0, 0], 4⟩ ∧
    get_key_from_key_file ⟨4294967295, 100⟩
        [⟨1, [17, 18, 19, 20], 4⟩, ⟨4, [33, 34], 2⟩, ⟨7, [49, 50, 51], 3⟩] 4
        (some [0, 0, 0]) 3 = .ok ⟨0, some [33, 34, 0], 2⟩ := by
  decide

theorem get_key_from_key_file_outcome_witness :
    ∃ res, get_key_from_key_file ⟨4294967295, 100⟩
        [⟨1, [17, 18, 19, 20], 4⟩, ⟨4, [33, 34], 2⟩, ⟨7, [49, 50, 51], 3⟩] 4
        (some [0, 0, 0]) 3 = .ok res ∧
      (res.rc = 4294967295 ∨ res.rc = 100 ∨ res.rc = 0) :=
  (get_key_from_key_file_outcome ⟨4294967295, 100⟩ (by decide) (by decide) (by decide)
    [⟨1, [17, 18, 19, 20], 4⟩, ⟨4, [33, 34], 2⟩, ⟨7, [49, 50, 51], 3⟩]
    (by decide) (by decide) (by decide) 4 (some [0, 0, 0]) 3
    (fun d h => by cases h; decide)).imp (fun _ h => ⟨h.1, h.2.1⟩)

end FileKeyManagement

namespace SqlExplain
open Table_access_tracker

/-! ## Registering and finding nodes -/

/-- Reading slot `j` of an array after `set_at` stored `x` in slot `i`. -/
theorem set_at_get {α : Type} (arr : List (Option α)) (i j : Nat) (x : α) :
    ((Explain_query.set_at arr i x).get? j).join
      = if j = i then some x else (arr.get? j).join := by
  unfold Explain_query.set_at
  simp only [List.get?_eq_getElem?]
  have hlen : i < (arr ++ List.replicate (i + 1 - arr.length) none).length := by
    simp only [List.length_append, List.length_replicate]
    omega
  by_cases hji : j = i
  · subst hji
    rw [if_pos rfl, List.getElem?_set_self hlen]
    rfl
  · rw [if_neg hji, List.getElem?_set_ne (Ne.symm hji)]
    by_cases hj : j < arr.length
    · rw [List.getElem?_append_left hj]
    · have hr : arr[j]? = none := List.getElem?_eq_none (by omega)
      rw [List.getElem?_append_right (by omega), hr]
      cases hv : (List.replicate (i + 1 - arr.length) (none : Option α))[j - arr.length]? with
      | none => rfl
      | some v =>
        have hmem : v ∈ List.replicate (i + 1 - arr.length) (none : Option α) :=
          List.getElem?_mem hv
        rw [(List.mem_replicate.mp hmem).2]
        rfl

theorem get_node_eq_none_iff (q : Explain_query) (j : Nat) :
    q.get_node j = none ↔ q.get_union j = none ∧ q.get_select j = none := by
  unfold Explain_query.get_node
  cases hu : q.get_union j <;> simp

/-- The call `add_node` on a union or select whose id is free succeeds, and
afterwards `get_node` finds the new node under its id and is unchanged under
every other id. -/
theorem add_node_spec (q : Explain_query) (node : Explain_node) (id : Nat)
    (hreg : registers_as node id) (hfree : q.get_node id = none) :
    ∃ q1, q.add_node node = some q1 ∧
      ∀ j, q1.get_node j = if j = id then some node else q.get_node j := by
  obtain ⟨hkind, hid⟩ := hreg
  obtain ⟨hfu, hfs⟩ := (get_node_eq_none_iff q id).mp hfree
  cases node with
  | union u =>
    have hid2 : u.get_select_id = some (id : Int) := hid
    have hU : ∀ j, ({ q with unions := Explain_query.set_at q.unions id u,
                             operations := q.operations + 1 } : Explain_query).get_union j
        = if j = id then some u else q.get_union j :=
      fun j => set_at_get q.unions id j u
    refine ⟨{ q with unions := Explain_query.set_at q.unions id u,
                     operations := q.operations + 1 }, ?_, ?_⟩
    · simp [Explain_query.add_node, hid2, hfree]
    · intro j
      have hS : ({ q with unions := Explain_query.set_at q.unions id u,
                          operations := q.operations + 1 } : Explain_query).get_select j
          = q.get_select j := rfl
      simp only [Explain_query.get_node, hU, hS]
      by_cases hj : j = id
      · simp [hj]
      · simp [hj]
  | select s =>
    have hid2 : s.get_select_id = (id : Int) := Option.some.inj hid
    have hS : ∀ j, ({ q with selects := Explain_query.set_at q.selects id s,
                             operations := q.operations + 1 } : Explain_query).get_select j
        = if j = id then some s else q.get_select j :=
      fun j => set_at_get q.selects id j s
    refine ⟨{ q with selects := Explain_query.set_at q.selects id s,
                     operations := q.operations + 1 }, ?_, ?_⟩
    · simp [Explain_query.add_node, hid2, hfree]
    · intro j
      have hU : ({ q with selects := Explain_query.set_at q.selects id s,
                          operations := q.operations + 1 } : Explain_query).get_union j
          = q.get_union j := rfl
      simp only [Explain_query.get_node, hU, hS]
      by_cases hj : j = id
      · subst hj
        simp [hfu]
      · simp [hj]
  | basic_join j => rcases hkind with h | h <;> cases h
  | update u => rcases hkind with h | h <;> cases h
  | delete d => rcases hkind with h | h <;> cases h
  | insert i => rcases hkind with h | h <;> cases h

/-- A run of `add_node` calls on unions and selects with pairwise distinct
ids, none of them taken in the plan, succeeds; afterwards `get_node` finds each
node under its id and is unchanged under every id that was not added. -/
theorem add_nodes_spec (nodes : List Explain_node) :
    ∀ q : Explain_query,
      (∀ n ∈ nodes, ∃ id, registers_as n id) →
      nodes.Pairwise (fun a b => a.get_select_id ≠ b.get_select_id) →
      (∀ n ∈ nodes, ∀ id, registers_as n id → q.get_node id = none) →
      ∃ q2, q.add_nodes nodes = some q2 ∧
        (∀ n ∈ nodes, ∀ id, registers_as n id → q2.get_node id = some n) ∧
        (∀ j : Nat, (∀ n ∈ nodes, n.get_select_id ≠ some (j : Int)) →
          q2.get_node j = q.get_node j) := by
  induction nodes with
  | nil =>
    intro q _ _ _
    exact ⟨q, rfl, fun n hn => absurd hn (List.not_mem_nil n), fun _ _ => rfl⟩
  | cons n rest ih =>
    intro q hreg hdist hfree
    obtain ⟨idn, hn⟩ := hreg n (List.mem_cons_self _ _)
    obtain ⟨q1, hadd, hq1⟩ := add_node_spec q n idn hn (hfree n (List.mem_cons_self _ _) idn hn)
    have hd := List.pairwise_cons.mp hdist
    have hne : ∀ m ∈ rest, ∀ id, registers_as m id → id ≠ idn := by
      intro m hm id hmid heq
      apply hd.1 m hm
      rw [hn.2, hmid.2, heq]
    obtain ⟨q2, hrun, hfound, hother⟩ := ih q1
      (fun m hm => hreg m (List.mem_cons_of_mem _ hm)) hd.2
      (fun m hm id hmid => by
        rw [hq1, if_neg (hne m hm id hmid)]
        exact hfree m (List.mem_cons_of_mem _ hm) id hmid)
    refine ⟨q2, ?_, ?_, ?_⟩
    · simp [Explain_query.add_nodes, hadd, hrun]
    · intro m hm id hmid
      rcases List.mem_cons.mp hm with h | h
      · subst h
        have hidn : id = idn := by
          have := hmid.2.symm.trans hn.2
          exact_mod_cast Option.some.inj this
        subst hidn
        rw [hother id (fun k hk h2 => hd.1 k hk (hn.2.trans h2.symm)), hq1, if_pos rfl]
      · exact hfound m h id hmid
    · intro j hj
      have hjn : j ≠ idn := by
        intro h
        apply hj n (List.mem_cons_self _ _)
        rw [hn.2, h]
      rw [hother j (fun k hk => hj k (List.mem_cons_of_mem _ hk)), hq1, if_neg hjn]

/-- Claim C11: after nodes (unions and selects) with pairwise distinct select
ids were added with `add_node`, in any order, to a fresh `Explain_query`, every
call has succeeded, `get_node(id)` returns the node that was added with that id
for every id added, and returns null for every id that was never added. -/
theorem add_node_get_node_round_trip (nodes : List Explain_node)
    (hreg : ∀ n ∈ nodes, ∃ id, registers_as n id)
    (hdist : nodes.Pairwise (fun a b => a.get_select_id ≠ b.get_select_id)) :
    ∃ q, Explain_query.new.add_nodes nodes = some q ∧
      (∀ n ∈ nodes, ∀ id : Nat, n.get_select_id = some (id : Int) →
        q.get_node id = some n) ∧
      (∀ id : Nat, (∀ n ∈ nodes, n.get_select_id ≠ some (id : Int)) →
        q.get_node id = none) := by
  obtain ⟨q, hrun, hfound, hother⟩ := add_nodes_spec nodes Explain_query.new hreg hdist
    (fun _ _ _ _ => rfl)
  refine ⟨q, hrun, ?_, ?_⟩
  · intro n hn id hid
    obtain ⟨id2, hk, _⟩ := hreg n hn
    exact hfound n hn id ⟨hk, hid⟩
  · intro id hid
    rw [hother id hid]
    rfl

theorem add_node_get_node_round_trip_witness :
    ∃ q, Explain_query.new.add_nodes
        [.select { Explain_select.zeroed with select_id := 3 },
         .union ((Explain_union.new Explain_union.zeroed).add_select 2 |>.add_select 5),
         .select { Explain_select.zeroed with select_id := 1 }] = some q ∧
      (q.get_node 4 = none ∧ q.get_node 0 = none) :=
  (add_node_get_node_round_trip
    [.select { Explain_select.zeroed with select_id := 3 },
     .union ((Explain_union.new Explain_union.zeroed).add_select 2 |>.add_select 5),
     .select { Explain_select.zeroed with select_id := 1 }]
    (by
      intro n hn
      simp only [List.mem_cons, List.mem_singleton, List.not_mem_nil, or_false] at hn
      rcases hn with h | h | h
      · exact ⟨3, by rw [h]; exact ⟨Or.inr rfl, rfl⟩⟩
      · exact ⟨2, by rw [h]; exact ⟨Or.inl rfl, rfl⟩⟩
      · exact ⟨1, by rw [h]; exact ⟨Or.inr rfl, rfl⟩⟩)
    (by decide)).imp
    (fun _ h => ⟨h.1, h.2.2 4 (by decide), h.2.2 0 (by decide)⟩)

/-- Three nodes added to a fresh plan are found under their ids, with their
kinds; an id that was not added is not found; adding an id twice fails. -/
theorem add_node_examples :
    ((Explain_query.new.add_nodes
        [.select { Explain_select.zeroed with select_id := 3 },
         .union ((Explain_union.new Explain_union.zeroed).add_select 2 |>.add_select 5),
         .select { Explain_select.zeroed with select_id := 1 }]).map
      (fun q => [0, 1, 2, 3, 4].map
        (fun id => (q.get_node id).map Explain_node.get_type)))
      = some [none, some .EXPLAIN_SELECT, some .EXPLAIN_UNION, some .EXPLAIN_SELECT, none] ∧
    ((Explain_query.new.add_nodes
        [.select { Explain_select.zeroed with select_id := 3 },
         .select { Explain_select.zeroed with select_id := 3 }]).isSome = false) := by
  decide

/-! ## The filtered fraction after a run of calls -/

theorem apply_r_rows_after_where (w : Nat) (t : Table_access_tracker) (op : Tracker_call) :
    (op.apply w t).r_rows_after_where =
      if op = .on_record_after_where then (t.r_rows_after_where + 1) % 2 ^ w
      else t.r_rows_after_where := by
  cases op <;> simp [Tracker_call.apply, on_scan_init, on_record_read, on_record_after_where]

theorem run_r_rows_after_where_mod (w : Nat) (ops : List Tracker_call)
    (t : Table_access_tracker) :
    (run w ops t).r_rows_after_where % 2 ^ w
      = (t.r_rows_after_where + ops.count .on_record_after_where) % 2 ^ w := by
  induction ops generalizing t with
  | nil => simp [run_nil]
  | cons op ops ih =>
    rw [run_cons, ih, apply_r_rows_after_where]
    by_cases h : op = .on_record_after_where
    · subst h
      simp only [if_true, List.count_cons_self]
      rw [Nat.add_mod, Nat.mod_mod, ← Nat.add_mod]
      congr 1
      omega
    · have h2 : (op == Tracker_call.on_record_after_where) = false := by simpa using h
      simp [h, List.count_cons, h2]

theorem run_r_rows_after_where_lt (w : Nat) (ops : List Tracker_call)
    (t : Table_access_tracker) (h : t.r_rows_after_where < 2 ^ w) :
    (run w ops t).r_rows_after_where < 2 ^ w := by
  induction ops generalizing t with
  | nil => simpa [run_nil] using h
  | cons op ops ih =>
    rw [run_cons]
    apply ih
    rw [apply_r_rows_after_where]
    split
    · exact Nat.mod_lt _ (Nat.pos_pow_of_pos w (by decide))
    · exact h

/-- On a fresh tracker `r_rows_after_where` is the number of
`on_record_after_where` calls, reduced modulo the counter range. -/
theorem run_new_r_rows_after_where (w : Nat) (ops : List Tracker_call) :
    (run w ops new).r_rows_after_where = ops.count .on_record_after_where % 2 ^ w := by
  have h := run_r_rows_after_where_mod w ops new
  rw [Nat.mod_eq_of_lt (run_r_rows_after_where_lt w ops new (by simp [new]))] at h
  simpa [new] using h

/-- Calls that are not `on_record_after_where`, put behind a run in which the
reads cover the filters, leave a run in which the reads cover the filters. -/
theorem reads_cover_filters_append (l1 l2 : List Tracker_call)
    (h1 : Tracker_call.reads_cover_filters l1)
    (h2 : l2.count .on_record_after_where = 0) :
    Tracker_call.reads_cover_filters (l1 ++ l2) := by
  intro n _
  rw [List.take_append_eq_append_take, List.count_append, List.count_append]
  have ha : (l2.take (n - l1.length)).count .on_record_after_where = 0 := by
    have := (List.take_sublist (n - l1.length) l2).count_le Tracker_call.on_record_after_where
    omega
  have hb : (l1.take n).count .on_record_after_where ≤ (l1.take n).count .on_record_read := by
    by_cases hn : n ≤ l1.length
    · exact h1 n hn
    · rw [List.take_of_length_le (by omega)]
      have := h1 l1.length (Nat.le_refl _)
      rwa [List.take_length] at this
  omega

/-- Claim C15, as the code has it: on a tracker with counters `w` bits wide
that is reached from a fresh one by calls in which every
`on_record_after_where` is preceded by an `on_record_read` of its own, and in
which fewer than `2 ^ w` calls are `on_record_read` (no counter has wrapped),
`r_rows_after_where ≤ r_rows` and `get_filtered_after_where()` lies in the
closed interval from 0 to 1. -/
theorem get_filtered_after_where_bounds (w : Nat) (ops : List Tracker_call)
    (hpair : Tracker_call.reads_cover_filters ops)
    (hw : ops.count .on_record_read < 2 ^ w) :
    (run w ops new).r_rows_after_where ≤ (run w ops new).r_rows ∧
    0 ≤ (run w ops new).get_filtered_after_where ∧
    (run w ops new).get_filtered_after_where ≤ 1 := by
  have hle : ops.count .on_record_after_where ≤ ops.count .on_record_read := by
    have := hpair ops.length (Nat.le_refl _)
    rwa [List.take_length] at this
  have hrows : (run w ops new).r_rows = ops.count .on_record_read := by
    rw [run_new_r_rows, Nat.mod_eq_of_lt hw]
  have hafter : (run w ops new).r_rows_after_where = ops.count .on_record_after_where := by
    rw [run_new_r_rows_after_where, Nat.mod_eq_of_lt (by omega)]
  refine ⟨by omega, ?_, ?_⟩
  · unfold get_filtered_after_where
    split
    · positivity
    · norm_num
  · unfold get_filtered_after_where
    split
    · rename_i hpos
      rw [div_le_one (by exact_mod_cast hpos)]
      exact_mod_cast (by omega : (run w ops new).r_rows_after_where ≤ (run w ops new).r_rows)
    · exact le_refl 1

theorem get_filtered_after_where_bounds_witness :
    0 ≤ (run 64 [.on_scan_init, .on_record_read, .on_record_after_where, .on_record_read,
        .on_record_read, .on_record_after_where] new).get_filtered_after_where ∧
    (run 64 [.on_scan_init, .on_record_read, .on_record_after_where, .on_record_read,
        .on_record_read, .on_record_after_where] new).get_filtered_after_where ≤ 1 :=
  (get_filtered_after_where_bounds 64
    [.on_scan_init, .on_record_read, .on_record_after_where, .on_record_read,
      .on_record_read, .on_record_after_where] (by decide) (by decide)).2

/-- Claim C15 fails as stated: on 64-bit counters, two rounds of
`on_record_read` then `on_record_after_where`, followed by `2 ^ 64 - 1` more
`on_record_read` calls, wrap `r_rows` to `1` while `r_rows_after_where` is
`2`, and `get_filtered_after_where()` is `2`. -/
theorem get_filtered_after_where_wraps :
    Tracker_call.reads_cover_filters
      ([Tracker_call.on_record_read, Tracker_call.on_record_after_where,
        Tracker_call.on_record_read, Tracker_call.on_record_after_where] ++
        List.replicate (2 ^ 64 - 1) Tracker_call.on_record_read) ∧
    (run 64 ([Tracker_call.on_record_read, Tracker_call.on_record_after_where,
        Tracker_call.on_record_read, Tracker_call.on_record_after_where] ++
        List.replicate (2 ^ 64 - 1) Tracker_call.on_record_read) new).get_filtered_after_where
      = 2 ∧
    ¬ ((run 64 ([Tracker_call.on_record_read, Tracker_call.on_record_after_where,
        Tracker_call.on_record_read, Tracker_call.on_record_after_where] ++
        List.replicate (2 ^ 64 - 1) Tracker_call.on_record_read) new).get_filtered_after_where
      ≤ 1) := by
  have hr : ([Tracker_call.on_record_read, Tracker_call.on_record_after_where,
        Tracker_call.on_record_read, Tracker_call.on_record_after_where] ++
        List.replicate (2 ^ 64 - 1) Tracker_call.on_record_read).count
        Tracker_call.on_record_read = 2 ^ 64 + 1 := by
    rw [List.count_append, List.count_replicate_self]
    decide
  have ha : ([Tracker_call.on_record_read, Tracker_call.on_record_after_where,
        Tracker_call.on_record_read, Tracker_call.on_record_after_where] ++
        List.replicate (2 ^ 64 - 1) Tracker_call.on_record_read).count
        Tracker_call.on_record_after_where = 2 := by
    rw [List.count_append, List.count_replicate]
    decide
  have hval : (run 64 ([Tracker_call.on_record_read, Tracker_call.on_record_after_where,
        Tracker_call.on_record_read, Tracker_call.on_record_after_where] ++
        List.replicate (2 ^ 64 - 1) Tracker_call.on_record_read) new).get_filtered_after_where
      = 2 := by
    unfold get_filtered_after_where
    rw [run_new_r_rows, run_new_r_rows_after_where, hr, ha]
    norm_num
  refine ⟨?_, hval, ?_⟩
  · apply reads_cover_filters_append
    · decide
    · rw [List.count_replicate]
      decide
  · rw [hval]
    norm_num

end SqlExplain

namespace FileKeyManagement

/-! ## The binary search -/

/-- In a table sorted by strictly ascending id, an id names one index. -/
theorem sorted_index_unique (keys : List keyentry) (hs : sorted_by_id keys) (i j : Nat)
    (e1 e2 : keyentry) (h1 : keys.get? i = some e1) (h2 : keys.get? j = some e2)
    (hid : e1.id = e2.id) : i = j := by
  rcases Nat.lt_trichotomy i j with h | h | h
  · have := sorted_get_lt keys hs i j e1 e2 h1 h2 h
    omega
  · exact h
  · have := sorted_get_lt keys hs j i e2 e1 h2 h1 h
    omega

/-- Whatever the table, a pointer that the loop of `get_key` returns points
to an entry of the table whose id is `key_id`. -/
theorem get_key_loop_some (keys : List keyentry) (key_id : Nat) :
    ∀ (fuel a b i : Nat), get_key_loop keys key_id fuel a b = .ok (some i) →
      ∃ e, keys.get? i = some e ∧ e.id = key_id := by
  intro fuel
  induction fuel with
  | zero =>
    intro a b i h
    rw [get_key_loop_unfold] at h
    split at h
    · simp at h
    · split at h
      · simp at h
      · rename_i ae hae
        split at h
        · rename_i hid
          injection h with h
          injection h with h
          subst h
          exact ⟨ae, hae, hid⟩
        · simp at h
  | succ fuel ih =>
    intro a b i h
    rw [get_key_loop_unfold] at h
    split at h
    · simp only at h
      split at h
      · simp at h
      · rename_i ce hce
        split at h
        · rename_i hid
          injection h with h
          injection h with h
          subst h
          exact ⟨ce, hce, hid⟩
        · split at h
          · exact ih _ _ _ h
          · exact ih _ _ _ h
    · split at h
      · simp at h
      · rename_i ae hae
        split at h
        · rename_i hid
          injection h with h
          injection h with h
          subst h
          exact ⟨ae, hae, hid⟩
        · simp at h

/-- On a window `[a, b)` inside the table and with fuel for the rounds that
are left, the loop of `get_key` returns, whatever the order of the table: it
neither runs out of fuel nor reads outside the array. -/
theorem get_key_loop_ok (keys : List keyentry) (key_id : Nat) :
    ∀ (fuel a b : Nat), a < b → b ≤ keys.length → b - a ≤ fuel + 1 →
      ∃ r, get_key_loop keys key_id fuel a b = .ok r := by
  intro fuel
  induction fuel with
  | zero =>
    intro a b hab hb hfuel
    have hba : ¬ (b - a > 1) := by omega
    obtain ⟨ae, hae⟩ : ∃ ae, keys.get? a = some ae :=
      ⟨keys.get ⟨a, by omega⟩, List.get?_eq_get _⟩
    rw [get_key_loop_unfold, if_neg hba, hae]
    by_cases hid : ae.id = key_id
    · exact ⟨some a, by simp [hid]⟩
    · exact ⟨none, by simp [hid]⟩
  | succ fuel ih =>
    intro a b hab hb hfuel
    by_cases hba : b - a > 1
    · obtain ⟨ce, hce⟩ : ∃ ce, keys.get? (a + (b - a) / 2) = some ce :=
        ⟨keys.get ⟨a + (b - a) / 2, by omega⟩, List.get?_eq_get _⟩
      rw [get_key_loop_unfold, if_pos hba]
      simp only [hce]
      by_cases hid : ce.id = key_id
      · exact ⟨some (a + (b - a) / 2), by simp [hid]⟩
      · rw [if_neg hid]
        by_cases hlt : ce.id < key_id
        · rw [if_pos hlt]
          exact ih _ _ (by omega) hb (by omega)
        · rw [if_neg hlt]
          exact ih _ _ (by omega) (by omega) (by omega)
    · obtain ⟨ae, hae⟩ : ∃ ae, keys.get? a = some ae :=
        ⟨keys.get ⟨a, by omega⟩, List.get?_eq_get _⟩
      rw [get_key_loop_unfold, if_neg hba, hae]
      by_cases hid : ae.id = key_id
      · exact ⟨some a, by simp [hid]⟩
      · exact ⟨none, by simp [hid]⟩

/-- Claim C12: on a non-empty table sorted by strictly ascending id the binary
search `get_key` ends (with `keys.length` rounds of fuel or more, and with the
same result), reads only inside the array, returns a pointer to the one entry
whose id is `key_id` when the table has such an entry, and returns null
otherwise. -/
theorem get_key_finds_entry (keys : List keyentry) (hne : keys ≠ [])
    (hs : sorted_by_id keys) (key_id : Nat) :
    (∃ r, get_key keys key_id = .ok r) ∧
    (∀ fuel, keys.length ≤ fuel →
      get_key_loop keys key_id fuel 0 keys.length = get_key keys key_id) ∧
    (∀ e ∈ keys, e.id = key_id →
      ∃ i, get_key keys key_id = .ok (some i) ∧ keys.get? i = some e) ∧
    (∀ e1 ∈ keys, ∀ e2 ∈ keys, e1.id = key_id → e2.id = key_id → e1 = e2) ∧
    ((∀ e ∈ keys, e.id ≠ key_id) → get_key keys key_id = .ok none) := by
  have hlen : 0 < keys.length := List.length_pos.mpr hne
  have hloop : ∀ fuel, keys.length ≤ fuel + 1 →
      (∃ i e, keys.get? i = some e ∧ e.id = key_id ∧
          get_key_loop keys key_id fuel 0 keys.length = .ok (some i)) ∨
      ((∀ e ∈ keys, e.id ≠ key_id) ∧
          get_key_loop keys key_id fuel 0 keys.length = .ok none) := by
    intro fuel hfuel
    apply get_key_loop_spec keys hs key_id fuel 0 keys.length hlen (Nat.le_refl _)
      (by omega)
    · intro i e hi
      omega
    · intro i e hi hie
      have := (List.get?_eq_some.mp hie).1
      omega
  refine ⟨?_, ?_, ?_, ?_, ?_⟩
  · rcases get_key_spec keys hne hs key_id with ⟨i, _, _, _, hkey⟩ | ⟨_, hkey⟩
    · exact ⟨_, hkey⟩
    · exact ⟨_, hkey⟩
  · intro fuel hfuel
    rcases get_key_spec keys hne hs key_id with ⟨i, e, hget, hid, hkey⟩ | ⟨hnone, hkey⟩
    · rcases hloop fuel (by omega) with ⟨i2, e2, hget2, hid2, hkey2⟩ | ⟨hnone2, _⟩
      · rw [hkey, hkey2,
          sorted_index_unique keys hs i2 i e2 e hget2 hget (hid2.trans hid.symm)]
      · exact absurd hid (hnone2 e (List.get?_mem hget))
    · rcases hloop fuel (by omega) with ⟨i2, e2, hget2, hid2, _⟩ | ⟨_, hkey2⟩
      · exact absurd hid2 (hnone e2 (List.get?_mem hget2))
      · rw [hkey, hkey2]
  · intro e he hide
    rcases get_key_spec keys hne hs key_id with ⟨i, e0, hget, hid, hkey⟩ | ⟨hnone, _⟩
    · refine ⟨i, hkey, ?_⟩
      rw [hget, sorted_id_unique keys hs e0 e (List.get?_mem hget) he (hid.trans hide.symm)]
    · exact absurd hide (hnone e he)
  · intro e1 h1 e2 h2 hid1 hid2
    exact sorted_id_unique keys hs e1 e2 h1 h2 (hid1.trans hid2.symm)
  · intro hnone
    rcases get_key_spec keys hne hs key_id with ⟨i, e, hget, hid, _⟩ | ⟨_, hkey⟩
    · exact absurd hid (hnone e (List.get?_mem hget))
    · exact hkey

theorem get_key_finds_entry_witness :
    (∃ r, get_key [⟨1, [17, 18, 19, 20], 4⟩, ⟨4, [33, 34], 2⟩, ⟨7, [49, 50, 51], 3⟩] 7
      = .ok r) ∧
    (∃ i, get_key [⟨1, [17, 18, 19, 20], 4⟩, ⟨4, [33, 34], 2⟩, ⟨7, [49, 50, 51], 3⟩] 7
        = .ok (some i) ∧
      [(⟨1, [17, 18, 19, 20], 4⟩ : keyentry), ⟨4, [33, 34], 2⟩, ⟨7, [49, 50, 51], 3⟩].get? i
        = some ⟨7, [49, 50, 51], 3⟩) :=
  ⟨(get_key_finds_entry [⟨1, [17, 18, 19, 20], 4⟩, ⟨4, [33, 34], 2⟩, ⟨7, [49, 50, 51], 3⟩]
      (by decide) (by decide) 7).1,
   (get_key_finds_entry [⟨1, [17, 18, 19, 20], 4⟩, ⟨4, [33, 34], 2⟩, ⟨7, [49, 50, 51], 3⟩]
      (by decide) (by decide) 7).2.2.1 ⟨7, [49, 50, 51], 3⟩ (by decide) rfl⟩

/-- Claim C13 fails on the code: on the empty key table `get_key` skips the
loop and then evaluates `a->id` with `a = keys.front()`, a read of an array
that has no element, whatever `key_id` is; `get_key_from_key_file` reaches no
return code. -/
theorem get_key_empty_table (key_id : Nat) (E : Encryption_codes)
    (dstbuf : Option (List Nat)) (buflen : Nat) :
    get_key [] key_id = .error .out_of_bounds ∧
    get_key [] 1 = .error .out_of_bounds ∧
    get_key_from_key_file E [] key_id dstbuf buflen = .error .out_of_bounds :=
  ⟨rfl, rfl, rfl⟩

/-- Claim C14: `get_key_from_key_file` changes the destination buffer only
when it returns `0`. When it returns `ENCRYPTION_KEY_BUFFER_TOO_SMALL` the
buffer is as before and `*buflen` is the key length of the entry found, which
is longer than the `*buflen` passed in; when it returns
`ENCRYPTION_KEY_BAD_VERSION` the buffer and `*buflen` are as before; when it
returns `0`, `*buflen` is the key length of the entry found. That holds for
every result the function returns, on every key table; and on every non-empty
table, with key arrays of `length` bytes and a buffer of `*buflen` bytes or
more, it does return. -/
theorem get_key_from_key_file_frame (E : Encryption_codes)
    (hB : E.ENCRYPTION_KEY_BAD_VERSION ≠ 0) (hS : E.ENCRYPTION_KEY_BUFFER_TOO_SMALL ≠ 0)
    (hBS : E.ENCRYPTION_KEY_BAD_VERSION ≠ E.ENCRYPTION_KEY_BUFFER_TOO_SMALL)
    (keys : List keyentry) (key_id : Nat) (dstbuf : Option (List Nat)) (L : Nat) :
    (∀ res, get_key_from_key_file E keys key_id dstbuf L = .ok res →
      (res.dstbuf ≠ dstbuf → res.rc = 0) ∧
      (res.rc = E.ENCRYPTION_KEY_BUFFER_TOO_SMALL →
        res.dstbuf = dstbuf ∧
        ∃ i e, get_key keys key_id = .ok (some i) ∧ keys.get? i = some e ∧
          e.id = key_id ∧ L < e.length ∧ res.buflen = e.length) ∧
      (res.rc = E.ENCRYPTION_KEY_BAD_VERSION → res.dstbuf = dstbuf ∧ res.buflen = L) ∧
      (res.rc = 0 →
        ∃ i e, get_key keys key_id = .ok (some i) ∧ keys.get? i = some e ∧
          e.id = key_id ∧ e.length ≤ L ∧ res.buflen = e.length)) ∧
    (keys ≠ [] → (∀ e ∈ keys, e.length ≤ e.key.length) →
      (∀ d, dstbuf = some d → L ≤ d.length) →
      ∃ res, get_key_from_key_file E keys key_id dstbuf L = .ok res) := by
  constructor
  · intro res hres
    unfold get_key_from_key_file at hres
    cases hkey : get_key keys key_id with
    | error f => simp [hkey] at hres
    | ok r =>
      cases r with
      | none =>
        simp only [hkey] at hres
        injection hres with hres
        subst hres
        refine ⟨fun h => absurd rfl h, fun h => absurd h hBS, fun _ => ⟨rfl, rfl⟩,
          fun h => absurd h hB⟩
      | some i =>
        simp only [hkey] at hres
        obtain ⟨e, hget, hid⟩ := get_key_loop_some keys key_id _ _ _ i hkey
        simp only [hget] at hres
        by_cases hL : L < e.length
        · rw [if_pos hL] at hres
          injection hres with hres
          subst hres
          exact ⟨fun h => absurd rfl h, fun _ => ⟨rfl, i, e, rfl, hget, hid, hL, rfl⟩,
            fun h => absurd h.symm hBS, fun h => absurd h hS⟩
        · rw [if_neg hL] at hres
          have hfit : e.length ≤ L := Nat.le_of_not_lt hL
          cases hd : dstbuf with
          | none =>
            simp only [hd] at hres
            injection hres with hres
            subst hres
            exact ⟨fun h => absurd rfl h, fun h => absurd h.symm hS,
              fun h => absurd h.symm hB, fun _ => ⟨i, e, rfl, hget, hid, hfit, rfl⟩⟩
          | some d =>
            simp only [hd] at hres
            cases hcpy : memcpy d e.key e.length with
            | error f => simp [hcpy] at hres
            | ok d1 =>
              simp only [hcpy] at hres
              injection hres with hres
              subst hres
              exact ⟨fun _ => rfl, fun h => absurd h.symm hS,
                fun h => absurd h.symm hB, fun _ => ⟨i, e, rfl, hget, hid, hfit, rfl⟩⟩
  · intro hne hwf hbuf
    have hlen : 0 < keys.length := List.length_pos.mpr hne
    obtain ⟨r, hkey⟩ := get_key_loop_ok keys key_id keys.length 0 keys.length hlen
      (Nat.le_refl _) (by omega)
    have hkey2 : get_key keys key_id = .ok r := hkey
    cases r with
    | none =>
      exact ⟨⟨E.ENCRYPTION_KEY_BAD_VERSION, dstbuf, L⟩, by simp [get_key_from_key_file, hkey2]⟩
    | some i =>
      obtain ⟨e, hget, _⟩ := get_key_loop_some keys key_id _ _ _ i hkey
      have hget2 : keys[i]? = some e := by
        rw [← List.get?_eq_getElem?]
        exact hget
      by_cases hL : L < e.length
      · exact ⟨⟨E.ENCRYPTION_KEY_BUFFER_TOO_SMALL, dstbuf, e.length⟩,
          by simp [get_key_from_key_file, hkey2, hget2, hL]⟩
      · cases hd : dstbuf with
        | none =>
          exact ⟨⟨0, none, e.length⟩, by simp [get_key_from_key_file, hkey2, hget2, hL]⟩
        | some d =>
          have hdL : L ≤ d.length := hbuf d hd
          obtain ⟨d1, hcpy, _⟩ :=
            memcpy_spec d e.key e.length (hwf e (List.get?_mem hget)) (by omega)
          exact ⟨⟨0, some d1, e.length⟩,
            by simp [get_key_from_key_file, hkey2, hget2, hL, hcpy]⟩

theorem get_key_from_key_file_frame_witness :
    get_key_from_key_file ⟨4294967295, 100⟩
        [⟨1, [17, 18, 19, 20], 4⟩, ⟨4, [33, 34], 2⟩, ⟨7, [49, 50, 51], 3⟩] 1
        (some [0, 0, 0]) 3 = .ok ⟨100, some [0, 0, 0], 4⟩ ∧
    (⟨100, some [0, 0, 0], 4⟩ : Key_file_result).dstbuf = some [0, 0, 0] ∧
    (∃ res, get_key_from_key_file ⟨4294967295, 100⟩
        [⟨1, [17, 18, 19, 20], 4⟩, ⟨4, [33, 34], 2⟩, ⟨7, [49, 50, 51], 3⟩] 1
        (some [0, 0, 0]) 3 = .ok res) :=
  ⟨by decide,
   (((get_key_from_key_file_frame ⟨4294967295, 100⟩ (by decide) (by decide) (by decide)
      [⟨1, [17, 18, 19, 20], 4⟩, ⟨4, [33, 34], 2⟩, ⟨7, [49, 50, 51], 3⟩] 1
      (some [0, 0, 0]) 3).1 ⟨100, some [0, 0, 0], 4⟩ (by decide)).2.1 rfl).1,
   (get_key_from_key_file_frame ⟨4294967295, 100⟩ (by decide) (by decide) (by decide)
      [⟨1, [17, 18, 19, 20], 4⟩, ⟨4, [33, 34], 2⟩, ⟨7, [49, 50, 51], 3⟩] 1
      (some [0, 0, 0]) 3).2 (by decide) (by decide) (fun d h => by cases h; decide)⟩

end FileKeyManagement
